import Mathlib

set_option maxHeartbeats 1000000
set_option maxRecDepth 4000

/-!
Verification development for the configly core engine
(packages/core: SchemaResolver, BlockGenerator, ConfigLoader, ConfigGenerator).

The TypeScript sources are shallowly embedded as executable Lean definitions:
JSON values become the inductive `CVal`, schemas become `Schema` (mirroring the
`JSONSchema` interface field by field, with `Option` for absent keys), thrown
exceptions become `Except`/`Option` results, and every recursive procedure is
driven by an explicit fuel argument defined with `Nat.rec` so that closed
applications reduce definitionally. Modelling conventions:

- JSON numbers are modelled as integers (`Int`); the engine only converts them
  with `String(...)` and `Number(...)`, which the model mirrors with a decimal
  printer and parser. The JS value `NaN` gets its own constructor `CVal.nan`
  (note `NaN === NaN` is false, mirrored by `jsStrictEq`).
- A JS object key holding `undefined` is identified with the key being absent,
  which is exactly what `cloneSchema` (a `JSON.parse(JSON.stringify(...))`
  round trip) normalises to; hence `cloneSchema` is the identity here.
- Blockly is an external collaborator; the workspace is modelled as an arena of
  blocks addressed by index, with the operations the core calls
  (`newBlock`, `getFieldValue`, `setFieldValue`, `getInput`, connections,
  `getNextBlock`, `getBlocksByType`).
-/

/-- JS runtime values as produced and consumed by the engine
(configuration objects, schema constants, field defaults). -/
inductive CVal where
  | null : CVal
  | nan : CVal
  | bool (b : Bool) : CVal
  | num (n : Int) : CVal
  | str (s : String) : CVal
  | arr (xs : List CVal) : CVal
  | obj (fs : List (String × CVal)) : CVal
  deriving Repr

/-- JS truthiness of a value (used by `value ? 'TRUE' : 'FALSE'`). -/
def jsTruthy : CVal → Bool
  | .null => false
  | .nan => false
  | .bool b => b
  | .num n => n != 0
  | .str s => s != ""
  | .arr _ => true
  | .obj _ => true

/-- JS strict equality `===` restricted to the cases the engine compares:
primitives compare by value, `NaN` is not equal to itself, and object or
array operands (compared by reference in JS) are conservatively unequal. -/
def jsStrictEq : CVal → CVal → Bool
  | .null, .null => true
  | .bool a, .bool b => a == b
  | .num a, .num b => a == b
  | .str a, .str b => a == b
  | _, _ => false

/-- Decimal digits of a natural number, via a fuel loop (`fuel ≥ n` is enough);
models the canonical decimal form produced by JS `String(number)`. -/
def natReprGo : Nat → Nat → String :=
  Nat.rec (motive := fun _ => Nat → String)
    (fun n => (Nat.digitChar (n % 10)).toString)
    (fun _ ih n =>
      if n < 10 then (Nat.digitChar n).toString
      else ih (n / 10) ++ (Nat.digitChar (n % 10)).toString)

/-- JS `String(value)` for the values the engine stringifies. -/
def natRepr (n : Nat) : String := natReprGo n n

/-- JS `String(value)` on an integer. -/
def intRepr (n : Int) : String :=
  match n with
  | .ofNat m => natRepr m
  | .negSucc m => "-" ++ natRepr (m + 1)

/-- JS `String(value)`: the string conversion applied by
`ConfigLoader.setFieldValue`/`setPrimitiveValue` (`String(value)`).
Arrays join their elements with commas; plain objects print as
`[object Object]`. -/
def jsStringGo : Nat → CVal → String :=
  Nat.rec (motive := fun _ => CVal → String)
    (fun _ => "")
    (fun _ ih v =>
      match v with
      | .null => "null"
      | .nan => "NaN"
      | .bool b => if b then "true" else "false"
      | .num n => intRepr n
      | .str s => s
      | .obj _ => "[object Object]"
      | .arr xs => String.intercalate "," (xs.map ih))

/-- JS `String(value)` with an explicit fuel budget; one unit of fuel per
array-nesting level, so any positive fuel is exact on the scalar values the
engine actually stringifies. Callers inside fuelled procedures pass their
ambient fuel down. -/
def jsStringF (fuel : Nat) (v : CVal) : String := jsStringGo fuel v

/-- Parse a list of decimal digit characters (JS `Number` on digit strings). -/
def digitsNat : List Char → Option Nat
  | [] => none
  | cs => cs.foldl (fun acc? c =>
      acc?.bind (fun acc => if c.isDigit then some (acc * 10 + (c.toNat - 48)) else none))
      (some 0)

/-- JS `Number(string)` restricted to the integer numerals the model uses;
`none` models `NaN`. `Number("")` is `0` in JS (both call sites guard the
empty string away before calling, but the model keeps the JS value). -/
def jsNumber (s : String) : Option Int :=
  if s = "" then some 0
  else match s.toList with
    | '-' :: rest => (digitsNat rest).map (fun n => -(n : Int))
    | cs => (digitsNat cs).map Int.ofNat

/-- JS `string.split(sep)` for a one-character separator, over the char list.
Splitting the empty string yields `[""]`, and a trailing separator yields a
trailing empty piece, as in JS. -/
def splitCharGo (sep : Char) : List Char → List Char → List String
  | acc, [] => [String.mk acc.reverse]
  | acc, c :: cs =>
    if c = sep then String.mk acc.reverse :: splitCharGo sep [] cs
    else splitCharGo sep (c :: acc) cs

/-- JS `string.split(sep)` for a one-character separator. -/
def splitChar (sep : Char) (s : String) : List String :=
  splitCharGo sep [] s.toList

/-- JS `string.replace(/p1p2/g, r)` for a two-character pattern replaced by a
one-character replacement: a single left-to-right non-overlapping pass. -/
def replacePairGo (p1 p2 r : Char) : List Char → List Char
  | [] => []
  | [c] => [c]
  | c1 :: c2 :: cs =>
    if c1 = p1 ∧ c2 = p2 then r :: replacePairGo p1 p2 r cs
    else c1 :: replacePairGo p1 p2 r (c2 :: cs)

/-- JS two-character pattern replacement, on strings. -/
def replacePair (p1 p2 r : Char) (s : String) : String :=
  String.mk (replacePairGo p1 p2 r s.toList)

/-- Does the string start with `#/` (the local-pointer test)? -/
def startsWithHashSlash (s : String) : Bool :=
  match s.toList with
  | '#' :: '/' :: _ => true
  | _ => false

/-- Drop the first `n` characters (JS `string.slice(n)`). -/
def strDrop (s : String) (n : Nat) : String := String.mk (s.toList.drop n)

/-- JS `string.toUpperCase()` (ASCII, which is all the engine feeds it). -/
def jsToUpper (s : String) : String := String.mk (s.toList.map Char.toUpper)

/-- The `type` keyword of a schema: a single type name or an array of them
(`JSONSchemaType | JSONSchemaType[]`). -/
inductive SType where
  | one (t : String)
  | many (ts : List String)
  deriving Repr, DecidableEq

/-- One layer of the `JSONSchema` interface (packages/core/src/types/index.ts),
with `α` at the recursive positions. `Option` models an absent key; `ref`
stands for the `$ref` key. Keys the engine never reads (`$schema`, `$id`,
`description`, `minimum`, ..., `pattern`) are omitted: they ride along
unchanged through every operation modelled here. -/
structure SchemaF (α : Type) where
  title : Option String := none
  description : Option String := none
  type : Option SType := none
  minimum : Option Int := none
  maximum : Option Int := none
  properties : Option (List (String × α)) := none
  items : Option (α ⊕ List α) := none
  required : Option (List String) := none
  enum : Option (List CVal) := none
  const : Option CVal := none
  default : Option CVal := none
  format : Option String := none
  additionalProperties : Option (Bool ⊕ α) := none
  definitions : Option (List (String × α)) := none
  ref : Option String := none
  oneOf : Option (List α) := none
  anyOf : Option (List α) := none
  allOf : Option (List α) := none
  deriving Repr

/-- A JSON schema document (the `JSONSchema` interface, tied recursively). -/
inductive Schema where
  | mk (f : SchemaF Schema) : Schema

/-- The single field bundle of a schema node. -/
def Schema.f : Schema → SchemaF Schema
  | .mk f => f

def Schema.title (s : Schema) : Option String := s.f.title
def Schema.description (s : Schema) : Option String := s.f.description
def Schema.type (s : Schema) : Option SType := s.f.type
def Schema.minimum (s : Schema) : Option Int := s.f.minimum
def Schema.maximum (s : Schema) : Option Int := s.f.maximum
def Schema.properties (s : Schema) : Option (List (String × Schema)) := s.f.properties
def Schema.items (s : Schema) : Option (Schema ⊕ List Schema) := s.f.items
def Schema.required (s : Schema) : Option (List String) := s.f.required
def Schema.enum (s : Schema) : Option (List CVal) := s.f.enum
def Schema.const (s : Schema) : Option CVal := s.f.const
def Schema.default (s : Schema) : Option CVal := s.f.default
def Schema.format (s : Schema) : Option String := s.f.format
def Schema.additionalProperties (s : Schema) : Option (Bool ⊕ Schema) := s.f.additionalProperties
def Schema.definitions (s : Schema) : Option (List (String × Schema)) := s.f.definitions
def Schema.ref (s : Schema) : Option String := s.f.ref
def Schema.oneOf (s : Schema) : Option (List Schema) := s.f.oneOf
def Schema.anyOf (s : Schema) : Option (List Schema) := s.f.anyOf
def Schema.allOf (s : Schema) : Option (List Schema) := s.f.allOf

def Schema.withRef (s : Schema) (r : Option String) : Schema := .mk { s.f with ref := r }
def Schema.withAllOf (s : Schema) (l : Option (List Schema)) : Schema := .mk { s.f with allOf := l }
def Schema.withOneOf (s : Schema) (l : Option (List Schema)) : Schema := .mk { s.f with oneOf := l }
def Schema.withAnyOf (s : Schema) (l : Option (List Schema)) : Schema := .mk { s.f with anyOf := l }
def Schema.withProperties (s : Schema) (l : Option (List (String × Schema))) : Schema :=
  .mk { s.f with properties := l }
def Schema.withItems (s : Schema) (l : Option (Schema ⊕ List Schema)) : Schema :=
  .mk { s.f with items := l }
def Schema.withAdditionalProperties (s : Schema) (l : Option (Bool ⊕ Schema)) : Schema :=
  .mk { s.f with additionalProperties := l }

/-- The empty schema literal `{}`. -/
def Schema.emptyS : Schema := .mk {}

/-- Errors raised by `SchemaResolver` (the spec taxonomy names them
`CircularReferenceError` and `PointerResolutionError`); `fuel` is the
model-only marker for an exhausted fuel budget. -/
inductive RErr where
  | circular (pointer : String)
  | pointer (pointer : String)
  | fuel
  deriving Repr, DecidableEq

/-- JS truthiness of an optional string (`if (clone.$ref)`). -/
def truthyStr : Option String → Bool
  | some s => s != ""
  | none => false

/-- JS truthiness of `xs?.length`: the key is present and nonempty. -/
def truthyLen {α : Type} : Option (List α) → Bool
  | some l => !l.isEmpty
  | none => false

namespace SchemaResolver

/-- `cloneSchema`: a `JSON.parse(JSON.stringify(schema))` deep copy. On the
model (immutable values, absent keys as `none`) this normalisation is the
identity. -/
def cloneSchema (s : Schema) : Schema := s

/-- The `{...(base.x ?? {}), ...(extension.x ?? {})}` union of two keyed maps:
base keys in base order with extension values winning, then extension-only
keys in extension order. -/
def mergeMap (base extension : Option (List (String × Schema))) : List (String × Schema) :=
  let b := base.getD []
  let e := extension.getD []
  b.map (fun kv => (kv.1, ((e.lookup kv.1).getD kv.2))) ++
    e.filter (fun kv => (b.lookup kv.1).isNone)

/-- JS `Set` union of the two `required` arrays: concatenation keeping the
first occurrence of each name. -/
def jsSetDedup : List String → List String → List String
  | _, [] => []
  | seen, a :: l => if a ∈ seen then jsSetDedup seen l else a :: jsSetDedup (a :: seen) l

/-- `SchemaResolver.mergeSchemas`: `{...base, ...extension}` with property and
definition maps unioned, required-name sets unioned, and the union-branch /
`items` / `additionalProperties` keywords taking the extension value if
present, else the base one. -/
def mergeSchemas (base extension : Schema) : Schema :=
  .mk {
    title := extension.title <|> base.title
    description := extension.description <|> base.description
    type := extension.type <|> base.type
    minimum := extension.minimum <|> base.minimum
    maximum := extension.maximum <|> base.maximum
    properties := some (mergeMap base.properties extension.properties)
    items := extension.items <|> base.items
    required :=
      if base.required.isSome || extension.required.isSome then
        some (jsSetDedup [] ((base.required.getD []) ++ (extension.required.getD [])))
      else none
    enum := extension.enum <|> base.enum
    const := extension.const <|> base.const
    default := extension.default <|> base.default
    format := extension.format <|> base.format
    additionalProperties := extension.additionalProperties <|> base.additionalProperties
    definitions := some (mergeMap base.definitions extension.definitions)
    ref := extension.ref <|> base.ref
    oneOf := extension.oneOf <|> base.oneOf
    anyOf := extension.anyOf <|> base.anyOf
    allOf := extension.allOf <|> base.allOf
  }

/-- An intermediate station of the `resolvePointer` walk: a schema node, a
keyed map of schemas (`properties`/`definitions`), or an array of schemas. -/
inductive PTarget where
  | sch (s : Schema)
  | smap (m : List (String × Schema))
  | slist (l : List Schema)

/-- One step `current[segment]` of the pointer walk. Keys holding scalars or
plain arrays of strings would make the JS walk fail at the following access
or at the final object check; the model folds those cases into `none`. -/
def ptChild : PTarget → String → Option PTarget
  | .sch s, seg =>
    if seg = "properties" then s.properties.map .smap
    else if seg = "definitions" then s.definitions.map .smap
    else if seg = "items" then
      s.items.map (fun it => match it with | .inl x => .sch x | .inr l => .slist l)
    else if seg = "oneOf" then s.oneOf.map .slist
    else if seg = "anyOf" then s.anyOf.map .slist
    else if seg = "allOf" then s.allOf.map .slist
    else if seg = "additionalProperties" then
      match s.additionalProperties with
      | some (.inr x) => some (.sch x)
      | _ => none
    else none
  | .smap m, seg => (m.lookup seg).map .sch
  | .slist l, seg =>
    match digitsNat seg.toList with
    | some n => if natRepr n = seg then (l.get? n).map .sch else none
    | none => none

/-- Unescape one pointer segment: `~1` to `/` then `~0` to `~`. -/
def unescapeSeg (seg : String) : String :=
  replacePair '~' '0' '~' (replacePair '~' '1' '/' seg)

/-- Walk the remaining pointer segments from an intermediate station. -/
def ptWalk (ptr : String) : Option PTarget → List String → Except RErr PTarget
  | some t, [] => .ok t
  | none, _ => .error (.pointer ptr)
  | some t, seg :: rest => ptWalk ptr (ptChild t seg) rest

/-- `SchemaResolver.resolvePointer`: dereference a local `#/a/b/c` pointer by
walking the root document. Non-local pointers, failed segment accesses and
walks not ending on a schema object raise (`PointerResolutionError`). -/
def resolvePointer (root : Schema) (ptr : String) : Except RErr Schema :=
  if ¬ startsWithHashSlash ptr then .error (.pointer ptr)
  else
    let segments := (splitChar '/' (strDrop ptr 2)).map unescapeSeg
    match ptWalk ptr (some (.sch root)) segments with
    | .ok (.sch s) => .ok s
    | .ok _ => .error (.pointer ptr)
    | .error e => .error e

/-- Line 47 of the structural tail of `resolve`:
`clone.oneOf = clone.oneOf.map(...)` when present and nonempty. -/
def oneOfPass (recur : Schema → List String → Except RErr Schema)
    (clone : Schema) (stack : List String) : Except RErr (Option (List Schema)) :=
  if truthyLen clone.oneOf then do
    let l' ← (clone.oneOf.getD []).mapM (fun o => recur o stack)
    pure (some l')
  else pure clone.oneOf

/-- Line 51: `clone.anyOf = clone.anyOf.map(...)` when present and nonempty. -/
def anyOfPass (recur : Schema → List String → Except RErr Schema)
    (clone : Schema) (stack : List String) : Except RErr (Option (List Schema)) :=
  if truthyLen clone.anyOf then do
    let l' ← (clone.anyOf.getD []).mapM (fun o => recur o stack)
    pure (some l')
  else pure clone.anyOf

/-- Lines 54-60: map the resolver over the property entries when the key is
present (even over an empty map, which is truthy in JS). -/
def propsPass (recur : Schema → List String → Except RErr Schema)
    (clone : Schema) (stack : List String) :
    Except RErr (Option (List (String × Schema))) :=
  match clone.properties with
  | some entries => do
      let entries' ← entries.mapM (fun kv => do
        let v' ← recur kv.2 stack
        pure (kv.1, v'))
      pure (some entries')
  | none => pure none

/-- Lines 62-68: resolve `items` in single or tuple form when present. -/
def itemsPass (recur : Schema → List String → Except RErr Schema)
    (clone : Schema) (stack : List String) :
    Except RErr (Option (Schema ⊕ List Schema)) :=
  match clone.items with
  | some (.inr l) => do
      let l' ← l.mapM (fun it => recur it stack)
      pure (some (Sum.inr l'))
  | some (.inl it) => do
      let it' ← recur it stack
      pure (some (Sum.inl it'))
  | none => pure none

/-- Lines 70-72: resolve an object-valued `additionalProperties`. -/
def addPPass (recur : Schema → List String → Except RErr Schema)
    (clone : Schema) (stack : List String) : Except RErr (Option (Bool ⊕ Schema)) :=
  match clone.additionalProperties with
  | some (.inr ap) => do
      let ap' ← recur ap stack
      pure (some (Sum.inr ap'))
  | some (.inl b) => pure (some (Sum.inl b))
  | none => pure none

/-- The structural tail of `resolve` (lines 46-74): map the resolver over
`oneOf`, `anyOf`, `properties`, `items` and an object-valued
`additionalProperties` in source order, leaving everything else on the clone
untouched (the JS code mutates the clone field by field; the model rebuilds
the node once with the five results, which reads each key of the original
clone exactly as the source does). -/
def resolveStructural (recur : Schema → List String → Except RErr Schema)
    (clone : Schema) (stack : List String) : Except RErr Schema :=
  oneOfPass recur clone stack >>= fun oneOf' =>
  anyOfPass recur clone stack >>= fun anyOf' =>
  propsPass recur clone stack >>= fun properties' =>
  itemsPass recur clone stack >>= fun items' =>
  addPPass recur clone stack >>= fun additionalProperties' =>
  pure (.mk { clone.f with
    oneOf := oneOf', anyOf := anyOf', properties := properties',
    items := items', additionalProperties := additionalProperties' })

/-- One unfolding of `SchemaResolver.resolve` with `recur` at the recursive
call sites. The pointer stack is the `ResolveContext` set: the `$ref` branch
checks membership, pushes the pointer around the inner resolution and
resolves the merged result with the outer stack (the JS `add`/`delete` pair
on the shared `Set` balances out exactly like this because a pointer already
in the set throws before the `add`). The spread `{ ...clone, $ref: undefined }`
writes an explicit `undefined` over `$ref`, so the merge result has its
`$ref` cleared regardless of the base; `withRef none` mirrors that. -/
def resolveF (root : Schema) (recur : Schema → List String → Except RErr Schema)
    (schema : Schema) (stack : List String) : Except RErr Schema :=
  let clone := cloneSchema schema
  if truthyStr clone.ref then
    let pointer := clone.ref.getD ""
    if pointer ∈ stack then .error (.circular pointer)
    else do
      let referenced ← resolvePointer root pointer
      let resolvedRef ← recur referenced (pointer :: stack)
      let merged := mergeSchemas resolvedRef (clone.withRef none)
      recur (merged.withRef none) stack
  else if truthyLen clone.allOf then do
    let merged0 := (cloneSchema clone).withAllOf none
    let merged ← (clone.allOf.getD []).foldlM (fun acc sub => do
      let resolved ← recur sub stack
      pure (mergeSchemas acc resolved)) merged0
    recur merged stack
  else
    resolveStructural recur clone stack

/-- `SchemaResolver.resolve` with an explicit fuel budget; every recursive
call consumes one unit, and running out yields the model-only error
`RErr.fuel`. Defined with `Nat.rec` so closed applications reduce. -/
def resolve (root : Schema) : Nat → Schema → List String → Except RErr Schema :=
  Nat.rec (motive := fun _ => Schema → List String → Except RErr Schema)
    (fun _ _ => .error .fuel)
    (fun _ ih => resolveF root ih)

end SchemaResolver

/-! ## Blockly collaborator model

The workspace is an arena of blocks addressed by creation index. A block
carries its type name, named scalar fields, named statement inputs (each
holding the id of the connected child, if any) and the `next` link of the
sibling chain. Blocks are instantiated from the registered block definitions
(the `BlockDefinition` objects the generator emits), which fix the available
fields with their initial values and the statement inputs with their
connection checks. -/

/-- One entry of `args0` in a generated `BlockDefinition`. `precision` on
number fields is 1 for integers and 0.01 otherwise; the model keeps the
distinction as a flag. -/
inductive BlockArg where
  | inputDummy
  | inputStatement (name : String) (check : Option (List String))
  | fieldInput (name : String) (text : String)
  | fieldNumber (name : String) (value : Int) (min max : Option Int) (intPrecision : Option Bool)
  | fieldCheckbox (name : String) (checked : Bool)
  | fieldDropdown (name : String) (options : List (String × String))
  | fieldDate (name : String) (text : String)
  deriving Repr, DecidableEq

/-- A generated Blockly block definition (`BlockDefinition` in the types
module); `check` values collapse the JS `string | string[]` union into a
list, whose head is what `Array.isArray(check) ? check[0] : check` reads. -/
structure BlockDefinition where
  type : String
  message0 : String
  args0 : List BlockArg := []
  previousStatement : Option String := none
  nextStatement : Option String := none
  colour : Int := 0
  tooltip : String := ""
  deriving Repr, DecidableEq

/-- The scalar fields a block instantiated from a definition starts with
(Blockly: text fields start at their `text`, number fields at `String(value)`,
checkboxes at `TRUE`/`FALSE`, dropdowns at their first option value). -/
def argInitFields : BlockArg → List (String × String)
  | .fieldInput n t => [(n, t)]
  | .fieldNumber n v _ _ _ => [(n, intRepr v)]
  | .fieldCheckbox n c => [(n, if c then "TRUE" else "FALSE")]
  | .fieldDropdown n opts => [(n, (opts.head?.map Prod.snd).getD "")]
  | .fieldDate n t => [(n, t)]
  | _ => []

/-- The statement inputs a block instantiated from a definition starts with
(all unconnected). -/
def argInitInputs : BlockArg → List (String × Option Nat)
  | .inputStatement n _ => [(n, none)]
  | _ => []

/-- A live block in the workspace arena. -/
structure Blk where
  btype : String
  fields : List (String × String)
  inputs : List (String × Option Nat)
  next : Option Nat
  deriving Repr, DecidableEq

/-- The live workspace: blocks addressed by creation index. -/
structure WS where
  blocks : List Blk
  deriving Repr, DecidableEq

/-- A discriminator `{property, value}` of a registered variant. -/
structure Discriminator where
  property : String
  value : CVal
  deriving Repr

/-- A registered union variant (`BlockVariant` in the types module). -/
structure BlockVariant where
  blockType : String
  schema : Schema
  title : String
  discriminator : Option Discriminator

/-- The generation-run artifacts shared by `ConfigLoader` and
`ConfigGenerator`: the Blockly definition registry, the root schema and root
block type, the type-to-schema map, the variant registry, and the
`ConfigGenerationOptions` the generator was constructed with. -/
structure Env where
  defs : List (String × BlockDefinition)
  schema : Schema
  rootType : String
  blockSchemaMap : List (String × Schema)
  variants : List (String × List BlockVariant)
  includeDefaults : Bool := false
  includeNulls : Bool := false
  customExtractors : List (String × (Blk → Schema → Option CVal)) := []

/-- Replace the element at an index, if present. -/
def listModify {α : Type} : List α → Nat → (α → α) → List α
  | [], _, _ => []
  | x :: xs, 0, f => f x :: xs
  | x :: xs, n+1, f => x :: listModify xs n f

/-- Update an association-list entry in place when the key is present
(a missing key leaves the list unchanged — Blockly `setFieldValue` throws on
an unknown field and every engine call site swallows that exception). -/
def assocSet {β : Type} : List (String × β) → String → β → List (String × β)
  | [], _, _ => []
  | kv :: l, k, v => if kv.1 = k then (k, v) :: l else kv :: assocSet l k v

def WS.empty : WS := ⟨[]⟩

def WS.getBlk (ws : WS) (i : Nat) : Option Blk := ws.blocks.get? i

/-- The type name of the block at an index (blocks the engine addresses
always exist; the default is never reached under the stated hypotheses). -/
def WS.btypeOf (ws : WS) (i : Nat) : String := ((ws.getBlk i).map Blk.btype).getD ""

/-- `workspace.newBlock(type)`: append a fresh block instantiated from the
registered definition, returning it by index. An unregistered type throws in
Blockly; the model instantiates an empty block instead (unreachable under
the stated hypotheses). -/
def WS.newBlock (env : Env) (ws : WS) (t : String) : WS × Nat :=
  let d := (env.defs.lookup t).getD { type := t, message0 := "", args0 := [] }
  (⟨ws.blocks ++ [⟨t, (d.args0.map argInitFields).flatten, (d.args0.map argInitInputs).flatten, none⟩]⟩,
    ws.blocks.length)

def WS.updateBlk (ws : WS) (i : Nat) (f : Blk → Blk) : WS := ⟨listModify ws.blocks i f⟩

/-- `block.setFieldValue(v, name)` (with the engine-side try/catch folded in:
no effect when the field does not exist). -/
def WS.setField (ws : WS) (i : Nat) (name v : String) : WS :=
  ws.updateBlk i (fun b => { b with fields := assocSet b.fields name v })

/-- `block.getFieldValue(name)`: `none` models the `null` Blockly returns for
an unknown field. -/
def WS.getField (ws : WS) (i : Nat) (name : String) : Option String :=
  (ws.getBlk i).bind (fun b => b.fields.lookup name)

/-- `block.getInput(name)` fused with `input.connection.targetBlock`:
`none` when the input does not exist, `some none` when unconnected. -/
def WS.getInputTarget (ws : WS) (i : Nat) (name : String) : Option (Option Nat) :=
  (ws.getBlk i).bind (fun b => b.inputs.lookup name)

/-- `block.getInputTargetBlock(name)`: id of the block connected to the
named statement input. -/
def WS.inputTargetBlock (ws : WS) (i : Nat) (name : String) : Option Nat :=
  ((ws.getInputTarget i name).getD none)

/-- `input.connection.connect(child.previousConnection)`. -/
def WS.setInputTarget (ws : WS) (i : Nat) (name : String) (tgt : Nat) : WS :=
  ws.updateBlk i (fun b => { b with inputs := assocSet b.inputs name (some tgt) })

/-- `prev.nextConnection.connect(child.previousConnection)`. -/
def WS.setNext (ws : WS) (i : Nat) (tgt : Nat) : WS :=
  ws.updateBlk i (fun b => { b with next := some tgt })

/-- `block.getNextBlock()`. -/
def WS.getNext (ws : WS) (i : Nat) : Option Nat :=
  (ws.getBlk i).bind Blk.next

/-- `input.connection.getCheck()` for a statement input, read off the block
definition the block was instantiated from. -/
def WS.getCheck (env : Env) (ws : WS) (i : Nat) (name : String) : Option (List String) :=
  (ws.getBlk i).bind (fun b =>
    (env.defs.lookup b.btype).bind (fun d =>
      d.args0.findSome? (fun a =>
        match a with
        | .inputStatement n c => if n = name then c else none
        | _ => none)))

/-- `workspace.getBlocksByType(t, false)`: block ids in creation order. -/
def WS.blocksOfType (ws : WS) (t : String) : List Nat :=
  (ws.blocks.enum.filter (fun p => p.2.btype = t)).map Prod.fst

/-- JS `value[prop]` on the candidate value: field lookup on structured
objects (`undefined` on arrays and everything else; array pseudo-fields
such as `length` are not modelled). -/
def cvGetField : CVal → String → Option CVal
  | .obj fs, k => fs.lookup k
  | _, _ => none

/-- The `value && typeof value === 'object'` guard: a truthy object-like
value (objects and arrays; `null` is falsy). -/
def isObjLike : CVal → Bool
  | .obj _ => true
  | .arr _ => true
  | _ => false

/-- `typeof value === 'object'` alone (this one is true of `null`). -/
def isTypeofObject : CVal → Bool
  | .obj _ => true
  | .arr _ => true
  | .null => true
  | _ => false

/-- A JS `ConfigObject` read of a value: its fields when it is an object,
nothing for an array (string-keyed reads are `undefined`). A `null` here
would make the JS engine throw on property access; the engine never feeds
one (the populate loop skips null values). -/
def cfgFields : CVal → List (String × CVal)
  | .obj fs => fs
  | _ => []

/-- The schema literal `{ type: 'object' }`. -/
def objTypeSchema : Schema := .mk { type := some (.one "object") }

/-- `Array.isArray(schema.items) ? schema.items[0] : schema.items ?? {type:'string'}`:
the per-item schema used for array fields. `items: []` makes the JS
expression `undefined`, modelled as `none`. -/
def jsItemsHead (s : Schema) : Option Schema :=
  match s.items with
  | some (.inl it) => some it
  | some (.inr (it :: _)) => some it
  | some (.inr []) => none
  | none => some (.mk { type := some (.one "string") })

namespace ConfigLoader

/-- Does a candidate value satisfy one registered variant, that is, does the
variant carry a discriminator whose property reads back
(`value[candidate.discriminator.property]`) strictly equal to the
discriminator value? -/
def discMatches (value : CVal) (c : BlockVariant) : Bool :=
  match c.discriminator with
  | some d =>
    match cvGetField value d.property with
    | some w => jsStrictEq w d.value
    | none => false
  | none => false

/-- `ConfigLoader.selectVariant`: on a structured candidate, the first
registered variant whose discriminator property strictly equals the
corresponding candidate field wins; otherwise (and when nothing matches)
the first registered variant. `none` when the path has no registrations. -/
def selectVariant (env : Env) (path : String) (value : CVal) : Option BlockVariant :=
  match env.variants.lookup path with
  | none => none
  | some candidates =>
    if candidates.isEmpty then none
    else if isObjLike value then
      match candidates.find? (discMatches value) with
      | some c => some c
      | none => candidates.head?
    else candidates.head?

/-- `ConfigLoader.setPrimitiveValue`: booleans become the two-state
`TRUE`/`FALSE` representation, everything else its `String(...)` form. -/
def setPrimitiveValue (fuel : Nat) (ws : WS) (id : Nat) (fieldName : String)
    (value : CVal) (schema : Schema) : WS :=
  if schema.type == some (.one "boolean") then
    ws.setField id fieldName (if jsTruthy value then "TRUE" else "FALSE")
  else
    ws.setField id fieldName (jsStringF (fuel + 1) value)

/-- The pending work items of the loader: `populate` is
`ConfigLoader.populateBlock`, `populateProps` its property loop,
`setFieldValue`, `loadArrayValue` (with `loadArrayItems` as its item loop),
`loadObjectValue` and `loadUnionValue` are the equally named methods. -/
inductive LJob where
  | populate (id : Nat) (config : List (String × CVal)) (schema : Schema) (path : String)
  | populateProps (id : Nat) (pending : List (String × Schema))
      (config : List (String × CVal)) (path : String)
  | setFieldValue (id : Nat) (fieldName : String) (value : CVal) (schema : Schema) (path : String)
  | loadArrayValue (id : Nat) (fieldName : String) (items : List CVal)
      (schema : Schema) (path : String)
  | loadArrayItems (id : Nat) (fieldName : String) (prev : Option Nat) (items : List CVal)
      (itemSchema : Option Schema) (path : String)
  | loadObjectValue (id : Nat) (fieldName : String) (value : CVal) (schema : Schema) (path : String)
  | loadUnionValue (id : Nat) (fieldName : String) (value : CVal) (path : String)

/-- One unfolding of the loader with `recur` at every recursive call site;
`none` only ever signals exhausted fuel in `loadRun`. -/
def loadStep (env : Env) (fuel : Nat) (recur : WS → LJob → Option WS)
    (ws : WS) (job : LJob) : Option WS :=
  match job with
  | .populate id config schema path =>
    let effectiveSchema := ((env.blockSchemaMap.lookup (ws.btypeOf id)).getD schema)
    recur ws (.populateProps id (effectiveSchema.properties.getD []) config path)
  | .populateProps _ [] _ _ => some ws
  | .populateProps id ((propName, propSchema) :: rest) config path =>
    match config.lookup propName with
    | none => recur ws (.populateProps id rest config path)
    | some .null => recur ws (.populateProps id rest config path)
    | some v => do
      let ws' ← recur ws (.setFieldValue id (jsToUpper propName) v propSchema
        (path ++ "_" ++ propName))
      recur ws' (.populateProps id rest config path)
  | .setFieldValue id fieldName value schema path =>
    if truthyLen schema.oneOf || truthyLen schema.anyOf then
      recur ws (.loadUnionValue id fieldName value path)
    else if schema.enum.isSome || schema.type == some (.one "string")
        || schema.type == some (.one "number") || schema.type == some (.one "integer")
        || schema.type == some (.one "boolean") then
      if schema.type == some (.one "boolean") then
        some (ws.setField id fieldName (if jsTruthy value then "TRUE" else "FALSE"))
      else
        some (ws.setField id fieldName (jsStringF (fuel + 1) value))
    else if schema.type == some (.one "array") then
      match value with
      | .arr items => recur ws (.loadArrayValue id fieldName items schema path)
      | _ => some ws
    else if schema.type == some (.one "object") && isTypeofObject value then
      recur ws (.loadObjectValue id fieldName value schema path)
    else some ws
  | .loadArrayValue id fieldName items schema path =>
    if items.isEmpty then some ws
    else
      match ws.getInputTarget id fieldName with
      | none => some ws
      | some _ => recur ws (.loadArrayItems id fieldName none items (jsItemsHead schema) path)
  | .loadArrayItems _ _ _ [] _ _ => some ws
  | .loadArrayItems id fieldName prev (item :: rest) itemSchema path =>
    let variant := selectVariant env path item
    let defaultBlockType := (WS.getCheck env ws id fieldName).bind List.head?
    match (variant.map BlockVariant.blockType) <|> defaultBlockType with
    | none => recur ws (.loadArrayItems id fieldName prev rest itemSchema path)
    | some itemBlockType => do
      let (ws1, itemId) := ws.newBlock env itemBlockType
      let effectiveSchema := ((variant.map BlockVariant.schema)
        <|> env.blockSchemaMap.lookup itemBlockType <|> itemSchema).getD Schema.emptyS
      let ws2 ←
        if effectiveSchema.type == some (.one "object") && isTypeofObject item then
          recur ws1 (.populate itemId (cfgFields item) effectiveSchema (ws1.btypeOf itemId))
        else
          some (setPrimitiveValue fuel ws1 itemId "VALUE" item effectiveSchema)
      let ws3 :=
        match prev with
        | none => ws2.setInputTarget id fieldName itemId
        | some prevId => ws2.setNext prevId itemId
      recur ws3 (.loadArrayItems id fieldName (some itemId) rest itemSchema path)
  | .loadObjectValue id fieldName value schema path =>
    match ws.getInputTarget id fieldName with
    | none => some ws
    | some _ =>
      let variant := selectVariant env path value
      let defaultBlockType := (WS.getCheck env ws id fieldName).bind List.head?
      match (variant.map BlockVariant.blockType) <|> defaultBlockType with
      | none => some ws
      | some objectBlockType => do
        let (ws1, objectId) := ws.newBlock env objectBlockType
        let effectiveSchema := ((variant.map BlockVariant.schema)
          <|> env.blockSchemaMap.lookup objectBlockType).getD schema
        let ws2 ← recur ws1 (.populate objectId (cfgFields value) effectiveSchema
          (ws1.btypeOf objectId))
        some (ws2.setInputTarget id fieldName objectId)
  | .loadUnionValue id fieldName value path =>
    if isTypeofObject value && !(value matches .null) then
      recur ws (.loadObjectValue id fieldName value objTypeSchema path)
    else
      match ws.getInputTarget id fieldName with
      | none => some ws
      | some _ =>
        let variant := selectVariant env path value
        let defaultBlockType := (WS.getCheck env ws id fieldName).bind List.head?
        match (variant.map BlockVariant.blockType) <|> defaultBlockType with
        | none => some ws
        | some blockType =>
          let (ws1, variantId) := ws.newBlock env blockType
          let schema := ((variant.map BlockVariant.schema)
            <|> env.blockSchemaMap.lookup blockType).getD Schema.emptyS
          let ws2 := setPrimitiveValue fuel ws1 variantId "VALUE" value schema
          some (ws2.setInputTarget id fieldName variantId)

/-- The loader with an explicit fuel budget (one unit per call;
`none` = fuel ran out). -/
def loadRun (env : Env) : Nat → WS → LJob → Option WS :=
  Nat.rec (motive := fun _ => WS → LJob → Option WS)
    (fun _ _ => none)
    (fun f ih => loadStep env f ih)

/-- `ConfigLoader.load`: clear the workspace, create one root block and
populate it (the `initSvg`/`render`/`scrollCenter` calls are rendering
operations of the external host with no structural effect). -/
def load (env : Env) (fuel : Nat) (config : List (String × CVal)) : Option WS :=
  let (ws1, rootId) := WS.empty.newBlock env env.rootType
  loadRun env fuel ws1 (.populate rootId config env.schema env.rootType)

end ConfigLoader

namespace ConfigGenerator

/-- `ConfigGenerator.extractPrimitiveValue`: empty, null and missing raw
values are absent; numbers go through `Number(...)`, booleans through the
`TRUE` comparison, everything else passes through. -/
def extractPrimitiveValue (ws : WS) (id : Nat) (fieldName : String) (schema : Schema) :
    Option CVal :=
  match ws.getField id fieldName with
  | none => none
  | some v =>
    if v = "" then none
    else if schema.type == some (.one "number") || schema.type == some (.one "integer") then
      some (match jsNumber v with | some n => .num n | none => .nan)
    else if schema.type == some (.one "boolean") then
      some (.bool (v = "TRUE"))
    else some (.str v)

/-- The per-property insertion decision of the `blockToConfig` loop
(lines 70-80): a produced non-null value is inserted; otherwise the
missing-field policy applies — the schema default when `includeDefaults`
is set and a default exists, an explicit null when `includeNulls` is set,
else the property is omitted. -/
def propPolicyEntries (env : Env) (propName : String) (propSchema : Schema)
    (value : Option CVal) (entries : List (String × CVal)) : List (String × CVal) :=
  match value with
  | some v =>
    if v matches .null then
      if env.includeDefaults && propSchema.default.isSome then
        (propName, propSchema.default.getD .null) :: entries
      else if env.includeNulls then (propName, .null) :: entries
      else entries
    else (propName, v) :: entries
  | none =>
    if env.includeDefaults && propSchema.default.isSome then
      (propName, propSchema.default.getD .null) :: entries
    else if env.includeNulls then (propName, .null) :: entries
    else entries

/-- The pending work items of the extractor: `blockToConfig` is
`ConfigGenerator.blockToConfig`, `configProps` its property loop,
`extractValue`, `extractArrayValue` (with `chainItems` as its sibling-chain
loop), `extractObjectValue` and `extractUnionValue` the equally named
methods. -/
inductive EJob where
  | blockToConfig (id : Nat) (schema : Schema) (path : String)
  | configProps (id : Nat) (pending : List (String × Schema)) (path : String)
  | extractValue (id : Nat) (fieldName : String) (schema : Schema) (path : String)
  | extractArrayValue (id : Nat) (fieldName : String) (schema : Schema) (path : String)
  | chainItems (cur : Option Nat) (itemSchema : Option Schema)
  | extractObjectValue (id : Nat) (fieldName : String) (schema : Schema) (path : String)
  | extractUnionValue (id : Nat) (fieldName : String) (path : String)

/-- One unfolding of the extractor. The result is layered:
outer `none` = exhausted fuel (model artifact), `some none` = the JS
`undefined`/`null` outcome, `some (some v)` = a produced value. -/
def extractStep (env : Env) (recur : WS → EJob → Option (Option CVal))
    (ws : WS) (job : EJob) : Option (Option CVal) :=
  match job with
  | .blockToConfig id schema path =>
    let effectiveSchema := (env.blockSchemaMap.lookup (ws.btypeOf id)).getD schema
    recur ws (.configProps id (effectiveSchema.properties.getD []) path)
  | .configProps _ [] _ => some (some (.obj []))
  | .configProps id ((propName, propSchema) :: rest) path =>
    recur ws (.extractValue id (jsToUpper propName) propSchema
      (path ++ "_" ++ propName)) >>= fun value =>
    recur ws (.configProps id rest path) >>= fun restVal =>
    let entries := match restVal with
      | some (.obj e) => e
      | _ => []
    some (some (.obj (propPolicyEntries env propName propSchema value entries)))
  | .extractValue id fieldName schema path =>
    match env.customExtractors.lookup fieldName with
    | some extractor => some (extractor ((ws.getBlk id).getD ⟨"", [], [], none⟩) schema)
    | none =>
      if truthyLen schema.oneOf || truthyLen schema.anyOf then
        recur ws (.extractUnionValue id fieldName path)
      else if schema.enum.isSome || schema.type == some (.one "string") then
        match ws.getField id fieldName with
        | none => some none
        | some v => if v = "" then some none else some (some (.str v))
      else if schema.type == some (.one "number") || schema.type == some (.one "integer") then
        match ws.getField id fieldName with
        | none => some none
        | some v =>
          if v = "" then some none
          else some (some (match jsNumber v with | some n => .num n | none => .nan))
      else if schema.type == some (.one "boolean") then
        some (some (.bool (ws.getField id fieldName == some "TRUE")))
      else if schema.type == some (.one "array") then
        recur ws (.extractArrayValue id fieldName schema path)
      else if schema.type == some (.one "object") then
        recur ws (.extractObjectValue id fieldName schema path)
      else some none
  | .extractArrayValue id fieldName schema _ =>
    recur ws (.chainItems (ws.inputTargetBlock id fieldName) (jsItemsHead schema))
  | .chainItems none _ => some (some (.arr []))
  | .chainItems (some cid) itemSchema => do
    let effectiveSchema := ((env.blockSchemaMap.lookup (ws.btypeOf cid)).map some
      |>.getD itemSchema).getD Schema.emptyS
    let item? ←
      if effectiveSchema.type == some (.one "object") then do
        let v ← recur ws (.blockToConfig cid effectiveSchema (ws.btypeOf cid))
        pure (some (v.getD (.obj [])))
      else
        pure (extractPrimitiveValue ws cid "VALUE" effectiveSchema)
    let restVal ← recur ws (.chainItems (ws.getNext cid) itemSchema)
    let restItems := match restVal with
      | some (.arr xs) => xs
      | _ => []
    match item? with
    | some item => some (some (.arr (item :: restItems)))
    | none => some (some (.arr restItems))
  | .extractObjectValue id fieldName schema _ =>
    match ws.inputTargetBlock id fieldName with
    | none => some none
    | some cid =>
      let effectiveSchema := (env.blockSchemaMap.lookup (ws.btypeOf cid)).getD schema
      recur ws (.blockToConfig cid effectiveSchema (ws.btypeOf cid))
  | .extractUnionValue id fieldName path =>
    match ws.inputTargetBlock id fieldName with
    | none => some none
    | some cid =>
      match env.variants.lookup path with
      | none =>
        match env.blockSchemaMap.lookup (ws.btypeOf cid) with
        | none => some none
        | some fallbackSchema => recur ws (.blockToConfig cid fallbackSchema (ws.btypeOf cid))
      | some variantList =>
        let variant := variantList.find? (fun entry => entry.blockType = ws.btypeOf cid)
        match (variant.map BlockVariant.schema) <|> env.blockSchemaMap.lookup (ws.btypeOf cid) with
        | none => some none
        | some schema => recur ws (.blockToConfig cid schema (ws.btypeOf cid))

/-- The extractor with an explicit fuel budget. -/
def extractRun (env : Env) : Nat → WS → EJob → Option (Option CVal) :=
  Nat.rec (motive := fun _ => WS → EJob → Option (Option CVal))
    (fun _ _ => none)
    (fun _ ih => extractStep env ih)

/-- Errors of `ConfigGenerator.generate` (`MissingRootInstanceError` in the
spec taxonomy) plus the model-only fuel marker. -/
inductive GenErr where
  | missingRoot
  | fuel
  deriving Repr, DecidableEq

/-- The diagnostic logged when several root blocks are present. -/
def multipleRootsWarning : String := "Multiple root blocks found, using first one"

/-- `ConfigGenerator.generate`: require a root-typed block, warn and take the
first when there are several, and convert it; the produced value is paired
with the emitted diagnostics. -/
def generate (env : Env) (fuel : Nat) (ws : WS) (rootBlockType : String) :
    Except GenErr (CVal × List String) :=
  match ws.blocksOfType rootBlockType with
  | [] => .error .missingRoot
  | r :: rest =>
    let diags := if rest.isEmpty then [] else [multipleRootsWarning]
    match extractRun env fuel ws (.blockToConfig r env.schema rootBlockType) with
    | some v? => .ok (v?.getD (.obj []), diags)
    | none => .error .fuel

end ConfigGenerator

/-! ## BlockGenerator model -/

/-- Squeeze runs of whitespace into single spaces (`.replace(/\s+/g, ' ')`). -/
def squeezeSpacesGo : Bool → List Char → List Char
  | _, [] => []
  | prevSpace, c :: cs =>
    if c.isWhitespace then
      if prevSpace then squeezeSpacesGo true cs else ' ' :: squeezeSpacesGo true cs
    else c :: squeezeSpacesGo false cs

/-- JS `string.trim()` restricted to whitespace at both ends. -/
def trimChars (l : List Char) : List Char :=
  ((l.dropWhile Char.isWhitespace).reverse.dropWhile Char.isWhitespace).reverse

/-- First pass of `humanize`: a space before every uppercase letter
(`.replace(/([A-Z])/g, ' $1')`) and underscores/hyphens to spaces
(`.replace(/[_-]/g, ' ')`). -/
def humanizeExpand : List Char → List Char
  | [] => []
  | c :: cs =>
    if c.isUpper then ' ' :: c :: humanizeExpand cs
    else if c = '_' || c = '-' then ' ' :: humanizeExpand cs
    else c :: humanizeExpand cs

/-- Capitalize one word (`charAt(0).toUpperCase() + slice(1).toLowerCase()`). -/
def capitalizeWord : List Char → List Char
  | [] => []
  | c :: cs => c.toUpper :: cs.map Char.toLower

/-- `BlockGenerator.humanize`: snake_case or camelCase to Human Readable. -/
def humanize (s : String) : String :=
  let expanded := squeezeSpacesGo false (humanizeExpand s.toList)
  let words := splitCharGo ' ' [] (trimChars expanded)
  String.intercalate " " (words.map (fun w => String.mk (capitalizeWord w.toList)))

/-- Slug characters: lowercase ASCII letters and digits. -/
def isSlugChar (c : Char) : Bool :=
  (('a' ≤ c && c ≤ 'z') || c.isDigit)

/-- Replace each maximal run of non-slug characters with one underscore
(`.replace(/[^a-z0-9]+/g, '_')`). -/
def slugReplaceGo : Bool → List Char → List Char
  | _, [] => []
  | inRun, c :: cs =>
    if isSlugChar c then c :: slugReplaceGo false cs
    else if inRun then slugReplaceGo true cs
    else '_' :: slugReplaceGo true cs

/-- Collapse runs of underscores (`.replace(/_{2,}/g, '_')`). -/
def collapseUndGo : Bool → List Char → List Char
  | _, [] => []
  | prevU, c :: cs =>
    if c = '_' then
      if prevU then collapseUndGo true cs else '_' :: collapseUndGo true cs
    else c :: collapseUndGo false cs

/-- Strip leading and trailing underscores (`.replace(/^_+|_+$/g, '')`). -/
def trimUnd (l : List Char) : List Char :=
  ((l.dropWhile (· = '_')).reverse.dropWhile (· = '_')).reverse

/-- `BlockGenerator.slugify`. -/
def slugify (value : String) : String :=
  let lowered := value.toList.map Char.toLower
  let slug := collapseUndGo false (trimUnd (slugReplaceGo false lowered))
  if slug.isEmpty then "option" else String.mk slug

/-- Insert-or-update on an insertion-ordered map (JS `Map.set`). -/
def mapSet {β : Type} : List (String × β) → String → β → List (String × β)
  | [], k, v => [(k, v)]
  | kv :: l, k, v => if kv.1 = k then (k, v) :: l else kv :: mapSet l k v

/-- `DEFAULT_COLOR_SCHEME`. -/
def defaultColorScheme : List (String × Int) :=
  [("root", 0), ("object", 230), ("string", 160), ("number", 290), ("integer", 290),
   ("boolean", 210), ("array", 120), ("enum", 65)]

/-- The generator configuration after constructor defaulting (`config.x ?? d`).
`blockPrefix`, `generateArrayBlocks`, `inlineInputs` and `customGenerators`
are defaulted by the constructor but never read by the generator body, and
are omitted. `colorScheme` is the merged `{...DEFAULT_COLOR_SCHEME, ...}`. -/
structure GeneratorConfig where
  rootBlockName : String := "config_root"
  colorScheme : List (String × Int) := defaultColorScheme
  maxDepth : Nat := 10

/-- Colour lookup `scheme[key] ?? scheme.string ?? 160`. -/
def schemeColor (cfg : GeneratorConfig) (key : String) : Int :=
  ((cfg.colorScheme.lookup key).orElse (fun _ => cfg.colorScheme.lookup "string")).getD 160

namespace BlockGenerator

/-- `BlockGenerator.extractDiscriminator`: scan the properties in declaration
order for the first whose schema fixes a `const`; that pair becomes the
discriminator. -/
def extractDiscriminator (schema : Schema) : Option Discriminator :=
  (schema.properties.getD []).findSome? (fun kv =>
    match kv.2.const with
    | some v => some ⟨kv.1, v⟩
    | none => none)

/-- Mutable generator state: the five insertion-ordered maps plus the
`console.warn` diagnostics. -/
structure GState where
  generatedBlocks : List (String × BlockDefinition) := []
  blockTypeMap : List (String × String) := []
  blockCategories : List (String × String) := []
  blockSchemaMap : List (String × Schema) := []
  variants : List (String × List BlockVariant) := []
  diagnostics : List String := []

/-- `BlockGenerator.registerVariant`. -/
def registerVariant (st : GState) (path blockType : String) (schema : Schema)
    (title : String) : GState :=
  let discriminator := extractDiscriminator schema
  let vs := (st.variants.lookup path).getD []
  { st with variants := mapSet st.variants path (vs ++ [⟨blockType, schema, title, discriminator⟩]) }

/-- `default as string` coerced for the model field (`?? ''`); a non-string
default goes through the Blockly-side string coercion. -/
def defaultAsString (s : Schema) : String :=
  match s.default with
  | some (.str t) => t
  | some v => jsStringF 1 v
  | none => ""

/-- `default as number` (`?? 0`); a non-number default falls to the Blockly
number-field fallback 0. -/
def defaultAsNum (s : Schema) : Int :=
  match s.default with
  | some (.num n) => n
  | some _ => 0
  | none => 0

/-- `default as boolean` (`?? false`), with Blockly checkbox coercion on a
non-boolean default. -/
def defaultAsBool (s : Schema) : Bool :=
  match s.default with
  | some (.bool b) => b
  | some v => jsTruthy v
  | none => false

/-- `schema.type ?? 'string'` as the name used in `${primitiveType}_item`
(a type array interpolates as its comma-joined form, like a JS template). -/
def typeKeyName : Option SType → String
  | none => "string"
  | some (.one t) => t
  | some (.many ts) => String.intercalate "," ts

/-- The first element of a type array (`type[0]`), with the dead corner of an
empty array defaulted. -/
def typeHeadName : Option SType → String
  | none => "string"
  | some (.one t) => t
  | some (.many ts) => ts.head?.getD "string"

/-- `BlockGenerator.generateItemBlock`: the shared generic item block for one
primitive kind (no `blockSchemaMap` entry is recorded for these). -/
def generateItemBlock (cfg : GeneratorConfig) (st : GState) (schema : Schema)
    (blockName : String) (topLevelCategory : Option String) : GState :=
  if (st.generatedBlocks.lookup blockName).isSome then st
  else
    let typeString := typeHeadName schema.type
    let title := (schema.title).getD (humanize typeString ++ " Item")
    let colour :=
      match schema.type with
      | some (.many ts) => schemeColor cfg (ts.head?.getD "string")
      | some (.one t) => schemeColor cfg t
      | none => schemeColor cfg "string"
    let valueArgs : List BlockArg :=
      if schema.enum.isSome then
        [.fieldDropdown "VALUE" ((schema.enum.getD []).map (fun v => (jsStringF 1 v, jsStringF 1 v)))]
      else
        match schema.type with
        | none => [.fieldInput "VALUE" (defaultAsString schema)]
        | some (.one "string") => [.fieldInput "VALUE" (defaultAsString schema)]
        | some (.one "number") =>
          [.fieldNumber "VALUE" (defaultAsNum schema) schema.minimum schema.maximum none]
        | some (.one "integer") =>
          [.fieldNumber "VALUE" (defaultAsNum schema) schema.minimum schema.maximum none]
        | some (.one "boolean") => [.fieldCheckbox "VALUE" (defaultAsBool schema)]
        | _ => []
    let blk : BlockDefinition := {
      type := blockName
      message0 := title ++ " %1"
      args0 := valueArgs
      previousStatement := some blockName
      nextStatement := some blockName
      colour := colour
      tooltip := (schema.description).getD ("Add " ++ title) }
    let st1 := { st with
      generatedBlocks := mapSet st.generatedBlocks blockName blk,
      blockTypeMap := mapSet st.blockTypeMap blockName blockName }
    match topLevelCategory with
    | some cat => { st1 with blockCategories := mapSet st1.blockCategories blockName cat }
    | none => st1

/-- Pending generator work: `objectBlock` is `generateObjectBlock` with
`propsLoop` as its property loop, `propertyInput` is
`generatePropertyInput`, `unionInput` is `generateUnionInput` with
`unionLoop` as its `forEach`, `arrayBlock` is `generateArrayBlock` with
`arrayVariantsLoop` as its variant map. -/
inductive GJob where
  | objectBlock (schema : Schema) (blockName : String) (isRoot : Bool) (depth : Nat)
      (displayName : Option String) (topLevelCategory : Option String)
  | propsLoop (blockName : String) (pending : List (String × Schema)) (required : List String)
      (isRoot : Bool) (depth : Nat) (topLevelCategory : Option String)
      (blk : BlockDefinition) (argIndex : Nat)
  | propertyInput (schema : Schema) (propName : String) (fullPath : String) (depth : Nat)
      (topLevelCategory : Option String)
  | unionInput (options : List Schema) (propName : String) (fullPath : String) (depth : Nat)
      (topLevelCategory : Option String) (displayName : String)
  | unionLoop (pending : List Schema) (index : Nat) (propName : String) (fullPath : String)
      (depth : Nat) (topLevelCategory : Option String) (displayName : String)
      (acc : List String)
  | arrayBlock (schema : Schema) (blockName : String) (depth : Nat)
      (topLevelCategory : Option String) (displayName : Option String)
  | arrayVariantsLoop (pending : List Schema) (index : Nat) (blockName : String) (depth : Nat)
      (category : Option String) (displayName : Option String) (acc : List String)

/-- Job results: a generated block name, an optional produced input argument,
a connection check (the `string | string[]` union as a list), a collected
name list, or an in-progress block with its argument counter. -/
inductive GOut where
  | name (s : String)
  | arg (a : Option BlockArg)
  | check (c : List String)
  | names (l : List String)
  | built (d : BlockDefinition) (argIndex : Nat)

def GOut.getName : GOut → String
  | .name s => s
  | _ => ""

def GOut.getArg : GOut → Option BlockArg
  | .arg a => a
  | _ => none

def GOut.getCheck : GOut → List String
  | .check c => c
  | _ => []

def GOut.getNames : GOut → List String
  | .names l => l
  | _ => []

def GOut.getBuilt : GOut → BlockDefinition
  | .built d _ => d
  | _ => { type := "", message0 := "" }

/-- One unfolding of the generator; `rfuel` is the fuel handed to each
embedded `SchemaResolver.resolve` call. -/
def genStep (cfg : GeneratorConfig) (root : Schema) (rfuel : Nat)
    (recur : GJob → GState → Except RErr (GOut × GState))
    (job : GJob) (st : GState) : Except RErr (GOut × GState) :=
  match job with
  | .objectBlock schema blockName isRoot depth displayName topLevelCategory =>
    if depth > cfg.maxDepth then
      .ok (.name blockName,
        { st with diagnostics := st.diagnostics ++ ["Max depth exceeded for block: " ++ blockName] })
    else if (st.generatedBlocks.lookup blockName).isSome then .ok (.name blockName, st)
    else do
      let resolvedSchema ← SchemaResolver.resolve root rfuel schema []
      let properties := resolvedSchema.properties.getD []
      let required := resolvedSchema.required.getD []
      let title := (displayName <|> resolvedSchema.title).getD (humanize blockName)
      let blk0 : BlockDefinition := {
        type := blockName
        message0 := title
        args0 := []
        colour := if isRoot then schemeColor cfg "root" else schemeColor cfg "object"
        tooltip := (resolvedSchema.description).getD ("Configure " ++ title)
        previousStatement := if isRoot then none else some blockName
        nextStatement := if isRoot then none else some blockName }
      let categoryName :=
        if isRoot then "Configuration"
        else topLevelCategory.getD (if depth = 1 then title else "Objects")
      let st1 := { st with blockCategories := mapSet st.blockCategories blockName categoryName }
      let (out, st2) ← recur
        (.propsLoop blockName properties required isRoot depth topLevelCategory blk0 0) st1
      let blk := out.getBuilt
      let st3 := { st2 with
        generatedBlocks := mapSet st2.generatedBlocks blockName blk,
        blockTypeMap := mapSet st2.blockTypeMap blockName blockName,
        blockSchemaMap := mapSet st2.blockSchemaMap blockName resolvedSchema }
      .ok (.name blockName, st3)
  | .propsLoop _ [] _ _ _ _ blk argIndex => .ok (.built blk argIndex, st)
  | .propsLoop blockName ((propName, propSchema) :: rest) required isRoot depth
      topLevelCategory blk argIndex => do
    let isRequired := propName ∈ required
    let label := humanize propName ++ (if isRequired then " *" else "")
    let childDisplayName := (propSchema.title).getD (humanize propName)
    let childTopLevelCategory :=
      if isRoot then some childDisplayName else some (topLevelCategory.getD childDisplayName)
    let argIndex1 := argIndex + 1
    let blk1 := { blk with
      message0 := blk.message0 ++ " %" ++ natRepr argIndex1 ++ " " ++ label,
      args0 := blk.args0 ++ [.inputDummy] }
    let (inputOut, st1) ← recur
      (.propertyInput propSchema propName (blockName ++ "_" ++ propName) depth
        childTopLevelCategory) st
    match inputOut.getArg with
    | some input =>
      let argIndex2 := argIndex1 + 1
      let blk2 := { blk1 with
        message0 := blk1.message0 ++ " %" ++ natRepr argIndex2,
        args0 := blk1.args0 ++ [input] }
      recur (.propsLoop blockName rest required isRoot depth topLevelCategory blk2 argIndex2) st1
    | none =>
      recur (.propsLoop blockName rest required isRoot depth topLevelCategory blk1 argIndex1) st1
  | .propertyInput schema propName fullPath depth topLevelCategory => do
    let resolvedSchema ← SchemaResolver.resolve root rfuel schema []
    let upperName := jsToUpper propName
    let displayName := (resolvedSchema.title).getD (humanize propName)
    if truthyLen resolvedSchema.oneOf then
      recur (.unionInput (resolvedSchema.oneOf.getD []) propName fullPath depth
        topLevelCategory displayName) st
    else if truthyLen resolvedSchema.anyOf then
      recur (.unionInput (resolvedSchema.anyOf.getD []) propName fullPath depth
        topLevelCategory displayName) st
    else if resolvedSchema.enum.isSome then
      .ok (.arg (some (.fieldDropdown upperName
        ((resolvedSchema.enum.getD []).map (fun v => (jsStringF 1 v, jsStringF 1 v))))), st)
    else
      if resolvedSchema.type = some (.one "string") then
        if resolvedSchema.format == some "date" then
          .ok (.arg (some (.fieldDate upperName (defaultAsString resolvedSchema))), st)
        else
          .ok (.arg (some (.fieldInput upperName (defaultAsString resolvedSchema))), st)
      else if resolvedSchema.type = some (.one "number") then
        .ok (.arg (some (.fieldNumber upperName (defaultAsNum resolvedSchema)
          resolvedSchema.minimum resolvedSchema.maximum (some false))), st)
      else if resolvedSchema.type = some (.one "integer") then
        .ok (.arg (some (.fieldNumber upperName (defaultAsNum resolvedSchema)
          resolvedSchema.minimum resolvedSchema.maximum (some true))), st)
      else if resolvedSchema.type = some (.one "boolean") then
        .ok (.arg (some (.fieldCheckbox upperName (defaultAsBool resolvedSchema))), st)
      else if resolvedSchema.type = some (.one "array") then do
        let (out, st1) ← recur
          (.arrayBlock resolvedSchema fullPath depth topLevelCategory (some displayName)) st
        .ok (.arg (some (.inputStatement upperName (some out.getCheck))), st1)
      else if resolvedSchema.type = some (.one "object") then do
        let (out, st1) ← recur
          (.objectBlock resolvedSchema fullPath false (depth + 1) (some displayName)
            topLevelCategory) st
        .ok (.arg (some (.inputStatement upperName (some [out.getName]))), st1)
      else .ok (.arg none, st)
  | .unionInput options propName fullPath depth topLevelCategory displayName => do
    let (out, st1) ← recur
      (.unionLoop options 0 propName fullPath depth topLevelCategory displayName []) st
    let variantTypes := out.getNames
    if variantTypes.isEmpty then .ok (.arg none, st1)
    else .ok (.arg (some (.inputStatement (jsToUpper propName) (some variantTypes))), st1)
  | .unionLoop [] _ _ _ _ _ _ acc => .ok (.names acc, st)
  | .unionLoop (option :: rest) index propName fullPath depth topLevelCategory
      displayName acc => do
    let resolvedOption ← SchemaResolver.resolve root rfuel option []
    let variantTitle := (resolvedOption.title).getD (displayName ++ " Option " ++ natRepr (index + 1))
    let slugBase := if variantTitle = "" then propName ++ "_" ++ natRepr (index + 1) else variantTitle
    let variantBlockType := fullPath ++ "_" ++ slugify slugBase
    let (_, st1) ← recur
      (.objectBlock resolvedOption variantBlockType false (depth + 1) (some variantTitle)
        topLevelCategory) st
    let st2 := registerVariant st1 fullPath variantBlockType resolvedOption variantTitle
    recur (.unionLoop rest (index + 1) propName fullPath depth topLevelCategory displayName
      (acc ++ [variantBlockType])) st2
  | .arrayBlock schema blockName depth topLevelCategory displayName => do
    let resolvedSchema ← SchemaResolver.resolve root rfuel schema []
    let itemSchema := (jsItemsHead resolvedSchema).getD Schema.emptyS
    let category := if depth > 0 then topLevelCategory else none
    if truthyLen itemSchema.oneOf || truthyLen itemSchema.anyOf then do
      let variants := (itemSchema.oneOf <|> itemSchema.anyOf).getD []
      let (out, st1) ← recur
        (.arrayVariantsLoop variants 0 blockName depth category displayName []) st
      .ok (.check out.getNames, st1)
    else if itemSchema.type == some (.one "object") then do
      let itemBlockType := blockName ++ "_item"
      let resolvedItem ← SchemaResolver.resolve root rfuel itemSchema []
      let itemTitle := (resolvedItem.title <|> displayName).getD (humanize itemBlockType)
      let (_, st1) ← recur
        (.objectBlock resolvedItem itemBlockType false (depth + 1) (some itemTitle) category) st
      let st2 := { st1 with blockSchemaMap := mapSet st1.blockSchemaMap itemBlockType resolvedItem }
      .ok (.check [itemBlockType], st2)
    else
      let itemBlockType := typeKeyName itemSchema.type ++ "_item"
      let st1 := generateItemBlock cfg st itemSchema itemBlockType (some "Common")
      .ok (.check [itemBlockType], st1)
  | .arrayVariantsLoop [] _ _ _ _ _ acc => .ok (.names acc, st)
  | .arrayVariantsLoop (variant :: rest) index blockName depth category displayName acc => do
    let resolvedVariant ← SchemaResolver.resolve root rfuel variant []
    let variantTitle := (resolvedVariant.title <|> displayName).getD
      (humanize blockName ++ " Option " ++ natRepr (index + 1))
    let variantBlockType := blockName ++ "_" ++ slugify variantTitle
    let (_, st1) ← recur
      (.objectBlock resolvedVariant variantBlockType false (depth + 1) (some variantTitle)
        category) st
    let st2 := registerVariant st1 blockName variantBlockType resolvedVariant variantTitle
    recur (.arrayVariantsLoop rest (index + 1) blockName depth category displayName
      (acc ++ [variantBlockType])) st2

/-- The generator with an explicit fuel budget. -/
def genRun (cfg : GeneratorConfig) (root : Schema) (rfuel : Nat) :
    Nat → GJob → GState → Except RErr (GOut × GState) :=
  Nat.rec (motive := fun _ => GJob → GState → Except RErr (GOut × GState))
    (fun _ _ => .error .fuel)
    (fun _ ih => genStep cfg root rfuel ih)

/-- Errors surfacing from `BlockGenerator.generate`: the non-object root
(`SchemaShapeError` in the spec taxonomy) or a resolver failure. -/
inductive BGErr where
  | shape
  | resolver (e : RErr)
  deriving Repr, DecidableEq

/-- The artifacts of a generation run (the toolbox, a pure rearrangement of
the category map that no claim touches, is not modelled). -/
structure GenerationResult where
  blocks : List BlockDefinition
  rootBlockType : String
  blockTypeMap : List (String × String)
  blockSchemaMap : List (String × Schema)
  variants : List (String × List BlockVariant)
  blockCategories : List (String × String)
  diagnostics : List String

/-- `BlockGenerator.generate`: resolve the root, insist it is object-shaped
(`type === 'object' || !type`), and generate the root block. -/
def generate (cfg : GeneratorConfig) (schema : Schema) (rfuel gas : Nat) :
    Except BGErr GenerationResult :=
  match SchemaResolver.resolve schema rfuel schema [] with
  | .error e => .error (.resolver e)
  | .ok resolvedRoot =>
    if resolvedRoot.type == some (.one "object") || resolvedRoot.type == none
        || resolvedRoot.type == some (.one "") then
      let rootTitle := (resolvedRoot.title).getD "Configuration"
      match genRun cfg schema rfuel gas
        (.objectBlock resolvedRoot cfg.rootBlockName true 0 (some rootTitle)
          (some "Configuration")) {} with
      | .error e => .error (.resolver e)
      | .ok (_, st) =>
        .ok { blocks := st.generatedBlocks.map Prod.snd
              rootBlockType := cfg.rootBlockName
              blockTypeMap := st.blockTypeMap
              blockSchemaMap := st.blockSchemaMap
              variants := st.variants
              blockCategories := st.blockCategories
              diagnostics := st.diagnostics }
    else .error .shape

/-- Primary termination measure of a generator job: the size of the schema
data it still has to walk (a proof-side measure, never evaluated). -/
noncomputable def jm1 : GJob → Nat
  | .objectBlock s _ _ _ _ _ => sizeOf s
  | .propsLoop _ pending _ _ _ _ _ _ => sizeOf pending
  | .propertyInput s _ _ _ _ => sizeOf s
  | .unionInput options _ _ _ _ _ => sizeOf options
  | .unionLoop pending _ _ _ _ _ _ _ => sizeOf pending
  | .arrayBlock s _ _ _ _ => sizeOf s
  | .arrayVariantsLoop pending _ _ _ _ _ _ => sizeOf pending

/-- Tie-breaking rank of a generator job (only the dispatch depth at equal
schema size matters). -/
def jm2 : GJob → Nat
  | .propertyInput _ _ _ _ _ => 2
  | .unionInput _ _ _ _ _ _ => 1
  | .arrayBlock _ _ _ _ _ => 1
  | _ => 0

end BlockGenerator

/-- A canonical (fully resolved) schema node: no truthy `$ref`, no nonempty
`allOf`, and every node the structural pass recurses into is itself
canonical. (`definitions` bodies are never entered by resolution and are
unconstrained; an empty `oneOf`/`anyOf`/`allOf` list is falsy in JS and is
left in place, so empty lists are canonical.) Every successful `resolve`
output is canonical, and resolving a canonical node returns it unchanged. -/
inductive Canon : Schema → Prop where
  | intro (s : Schema)
      (href : truthyStr s.ref = false)
      (hallOf : truthyLen s.allOf = false)
      (honeOf : ∀ x ∈ s.oneOf.getD [], Canon x)
      (hanyOf : ∀ x ∈ s.anyOf.getD [], Canon x)
      (hprops : ∀ kv ∈ s.properties.getD [], Canon kv.2)
      (hitems1 : ∀ x, s.items = some (Sum.inl x) → Canon x)
      (hitems2 : ∀ l x, s.items = some (Sum.inr l) → x ∈ l → Canon x)
      (haddP : ∀ x, s.additionalProperties = some (Sum.inr x) → Canon x) :
      Canon s

/-- The canonicity and resolver-fuel obligations a pending generator job
carries: every schema it still holds is canonical and fits in the fuel
handed to the embedded `resolve` calls. -/
def GJobOK (rfuel : Nat) : BlockGenerator.GJob → Prop
  | .objectBlock s _ _ _ _ _ => Canon s ∧ sizeOf s ≤ rfuel
  | .propsLoop _ pending _ _ _ _ _ _ => ∀ kv ∈ pending, Canon kv.2 ∧ sizeOf kv.2 ≤ rfuel
  | .propertyInput s _ _ _ _ => Canon s ∧ sizeOf s ≤ rfuel
  | .unionInput options _ _ _ _ _ => ∀ x ∈ options, Canon x ∧ sizeOf x ≤ rfuel
  | .unionLoop pending _ _ _ _ _ _ _ => ∀ x ∈ pending, Canon x ∧ sizeOf x ≤ rfuel
  | .arrayBlock s _ _ _ _ => Canon s ∧ sizeOf s ≤ rfuel
  | .arrayVariantsLoop pending _ _ _ _ _ _ => ∀ x ∈ pending, Canon x ∧ sizeOf x ≤ rfuel

/-- A representable primitive value for a property schema (the restriction
under which the round trip is exact): the property is primitive-typed with
no union and no enum, and the value matches its type — a nonempty string, an
integer-valued numeric, or a native boolean. -/
def repVal (psch : Schema) (v : CVal) : Bool :=
  if truthyLen psch.oneOf || truthyLen psch.anyOf then false
  else if psch.enum.isSome then false
  else
    match psch.type, v with
    | some (.one "string"), .str s => s != ""
    | some (.one "number"), .num _ => true
    | some (.one "integer"), .num _ => true
    | some (.one "boolean"), .bool _ => true
    | _, _ => false

/-- The raw field string the loader writes for one representable primitive
value: the two-state form for booleans, `String(value)` otherwise. -/
def loadFieldStr (psch : Schema) (v : CVal) : String :=
  if psch.type == some (.one "boolean") then (if jsTruthy v then "TRUE" else "FALSE")
  else jsStringF 1 v

/-! ## Concrete instances used in the theorems below -/

/-- The schema literal `{type:"string"}`. -/
def sStr : Schema := .mk { type := some (.one "string") }

/-- The schema literal `{type:"boolean"}`. -/
def sBool : Schema := .mk { type := some (.one "boolean") }

/-- The schema literal `{type:"number"}`. -/
def sNum : Schema := .mk { type := some (.one "number") }

/-- A small canonical object schema used to exercise the generator depth
policy. -/
def c5schema : Schema := .mk {
  type := some (.one "object"),
  properties := some [("name", sStr), ("flag", sBool)] }

/-- The azure variant schema of the discriminator example. -/
def azureSchema : Schema := .mk {
  type := some (.one "object"),
  properties := some [("type", .mk { const := some (.str "azure") }), ("organization", sStr)] }

/-- The jira variant schema of the discriminator example. -/
def jiraSchema : Schema := .mk {
  type := some (.one "object"),
  properties := some [("type", .mk { const := some (.str "jira") }), ("projectName", sStr)] }

/-- The azure variant as registered (first). -/
def azureVariant : BlockVariant :=
  ⟨"config_root_tracker_azure", azureSchema, "Azure", some ⟨"type", .str "azure"⟩⟩

/-- The jira variant as registered (second). -/
def jiraVariant : BlockVariant :=
  ⟨"config_root_tracker_jira", jiraSchema, "Jira", some ⟨"type", .str "jira"⟩⟩

/-- An environment with the two variants registered at one path. -/
def trackerEnv : Env := {
  defs := [], schema := Schema.emptyS, rootType := "config_root",
  blockSchemaMap := [], variants := [("config_root_tracker", [azureVariant, jiraVariant])] }

/-- A root schema with a single string property. -/
def c8schema : Schema := .mk {
  type := some (.one "object"),
  properties := some [("name", sStr)] }

/-- The root block definition for the root-count scenarios. -/
def c8def : BlockDefinition := {
  type := "config_root"
  message0 := "Configuration"
  args0 := [.fieldInput "NAME" ""] }

/-- An environment for the root-count scenarios. -/
def c8env : Env := {
  defs := [("config_root", c8def)]
  schema := c8schema
  rootType := "config_root"
  blockSchemaMap := [("config_root", c8schema)]
  variants := [] }

/-- A workspace holding two root-typed blocks (distinguished by their NAME
field) in creation order. -/
def c8ws2 : WS :=
  ⟨[⟨"config_root", [("NAME", "a")], [], none⟩, ⟨"config_root", [("NAME", "b")], [], none⟩]⟩

/-- A workspace with no root-typed block. -/
def c8ws0 : WS := ⟨[⟨"other", [], [], none⟩]⟩

/-- A workspace whose single block has the raw string `abc` in its `N`
field (a number-typed property per the schema). -/
def c7ws : WS := ⟨[⟨"b", [("N", "abc")], [], none⟩]⟩

/-- A plain environment with no custom extractors. -/
def c7env : Env := {
  defs := [], schema := Schema.emptyS, rootType := "b",
  blockSchemaMap := [], variants := [] }

/-- The round-trip counterexample schema: one optional boolean property. -/
def c1schema : Schema := .mk {
  type := some (.one "object"),
  properties := some [("b", sBool)] }

/-- The root block definition for the round-trip scenarios: a checkbox field
for the boolean property. -/
def c1def : BlockDefinition := {
  type := "cfg_root"
  message0 := "Config"
  args0 := [.fieldCheckbox "B" false] }

/-- The environment of the round-trip scenarios (no variants, no custom
extractors, omit policy). -/
def c1env : Env := {
  defs := [("cfg_root", c1def)]
  schema := c1schema
  rootType := "cfg_root"
  blockSchemaMap := [("cfg_root", c1schema)]
  variants := [] }

/-- The allOf merge example of the spec. -/
def allOfExample : Schema := .mk { allOf := some [
  .mk { properties := some [("a", sStr)] },
  .mk { properties := some [("b", sStr)], required := some ["b"] } ] }

/-- A schema that points at itself: the document carries one definition whose
body dereferences its own pointer. -/
def cyclicSchema : Schema := .mk {
  ref := some "#/definitions/a",
  definitions := some [("a", .mk { ref := some "#/definitions/a" })] }

/-- A schema dereferencing the same pointer from two sibling properties: each
resolution completes before the next begins. -/
def diamondSchema : Schema := .mk {
  type := some (.one "object"),
  properties := some [("x", .mk { ref := some "#/definitions/d" }),
                      ("y", .mk { ref := some "#/definitions/d" })],
  definitions := some [("d", sStr)] }

/-! ## Theorems -/

/-- C4: for every registered variant list at a path, `selectVariant` with a
structured candidate returns the first registered variant whose discriminator
property strictly equals the corresponding candidate field; when no
discriminator matches, when the candidate is not structured, or when no
variant defines a discriminator, it returns the first registered variant.
The closed conjuncts run the azure/jira example of the spec. -/
theorem selectVariant_spec :
    (∀ env path cs v c, env.variants.lookup path = some cs →
      isObjLike v = true → cs.find? (ConfigLoader.discMatches v) = some c →
      ConfigLoader.selectVariant env path v = some c)
    ∧ (∀ env path cs v, env.variants.lookup path = some cs → cs ≠ [] →
      isObjLike v = true → cs.find? (ConfigLoader.discMatches v) = none →
      ConfigLoader.selectVariant env path v = cs.head?)
    ∧ (∀ env path cs v, env.variants.lookup path = some cs → cs ≠ [] →
      isObjLike v = false →
      ConfigLoader.selectVariant env path v = cs.head?)
    ∧ ConfigLoader.selectVariant trackerEnv "config_root_tracker"
        (.obj [("type", .str "jira"), ("projectName", .str "x")]) = some jiraVariant
    ∧ ConfigLoader.selectVariant trackerEnv "config_root_tracker"
        (.obj [("type", .str "gitlab")]) = some azureVariant := by
  refine ⟨?_, ?_, ?_, by rfl, by rfl⟩
  · intro env path cs v c hreg hobj hfind
    have hne : cs.isEmpty = false := by
      cases cs with
      | nil => simp at hfind
      | cons a l => rfl
    unfold ConfigLoader.selectVariant
    rw [hreg]
    simp [hne, hobj, hfind]
  · intro env path cs v hreg hne hobj hfind
    have hne' : cs.isEmpty = false := by
      cases cs with
      | nil => exact absurd rfl hne
      | cons a l => rfl
    unfold ConfigLoader.selectVariant
    rw [hreg]
    simp [hne', hobj, hfind]
  · intro env path cs v hreg hne hobj
    have hne' : cs.isEmpty = false := by
      cases cs with
      | nil => exact absurd rfl hne
      | cons a l => rfl
    unfold ConfigLoader.selectVariant
    rw [hreg]
    simp [hne', hobj]

/-- C4 witness: the hypothesized conjuncts applied at the registered
tracker path. -/
theorem selectVariant_spec_witness :
    ConfigLoader.selectVariant trackerEnv "config_root_tracker"
      (.obj [("type", .str "jira")]) = some jiraVariant
    ∧ ConfigLoader.selectVariant trackerEnv "config_root_tracker"
      (.str "zzz") = some azureVariant := by
  constructor
  · exact selectVariant_spec.1 trackerEnv "config_root_tracker" [azureVariant, jiraVariant]
      (.obj [("type", .str "jira")]) jiraVariant rfl rfl (by rfl)
  · have h := selectVariant_spec.2.2.1 trackerEnv "config_root_tracker"
      [azureVariant, jiraVariant] (.str "zzz") rfl (by simp) rfl
    simpa using h

/-- C8: `ConfigGenerator.generate` requires a root-typed block: none is the
hard missing-root failure; several are tolerated with a logged diagnostic,
extraction proceeding from the first one and returning a normal result.
The closed conjuncts exercise a rootless and a two-root workspace. -/
theorem generate_root_policy :
    (∀ env fuel ws t, ws.blocksOfType t = [] →
      ConfigGenerator.generate env fuel ws t = .error .missingRoot)
    ∧ (∀ env fuel ws t r rest v?, ws.blocksOfType t = r :: rest → rest ≠ [] →
      ConfigGenerator.extractRun env fuel ws (.blockToConfig r env.schema t) = some v? →
      ConfigGenerator.generate env fuel ws t =
        .ok (v?.getD (.obj []), [ConfigGenerator.multipleRootsWarning]))
    ∧ (∀ env fuel ws t r v?, ws.blocksOfType t = [r] →
      ConfigGenerator.extractRun env fuel ws (.blockToConfig r env.schema t) = some v? →
      ConfigGenerator.generate env fuel ws t = .ok (v?.getD (.obj []), []))
    ∧ ConfigGenerator.generate c8env 9 c8ws0 "config_root" = .error .missingRoot
    ∧ ConfigGenerator.generate c8env 9 c8ws2 "config_root" =
        .ok (.obj [("name", .str "a")], [ConfigGenerator.multipleRootsWarning]) := by
  refine ⟨?_, ?_, ?_, by rfl, by rfl⟩
  · intro env fuel ws t hroots
    unfold ConfigGenerator.generate
    rw [hroots]
  · intro env fuel ws t r rest v? hroots hne hex
    have hne' : rest.isEmpty = false := by
      cases rest with
      | nil => exact absurd rfl hne
      | cons a l => rfl
    unfold ConfigGenerator.generate
    rw [hroots]
    simp [hne', hex]
  · intro env fuel ws t r v? hroots hex
    unfold ConfigGenerator.generate
    rw [hroots]
    simp [hex]

/-- C8 witness: the hypothesized conjuncts applied at the two-root and
single-root workspaces. -/
theorem generate_root_policy_witness :
    ConfigGenerator.generate c8env 9 c8ws2 "config_root" =
      .ok (.obj [("name", .str "a")], [ConfigGenerator.multipleRootsWarning])
    ∧ ConfigGenerator.generate c8env 9 ⟨[⟨"config_root", [("NAME", "a")], [], none⟩]⟩
        "config_root" = .ok (.obj [("name", .str "a")], []) := by
  constructor
  · exact generate_root_policy.2.1 c8env 9 c8ws2 "config_root" 0 [1]
      (some (.obj [("name", .str "a")])) (by rfl) (by simp) (by rfl)
  · exact generate_root_policy.2.2.1 c8env 9 _ "config_root" 0
      (some (.obj [("name", .str "a")])) (by rfl) (by rfl)

/-- One-step unfolding of the fuelled resolver. -/
theorem resolve_succ (root : Schema) (f : Nat) :
    SchemaResolver.resolve root (f + 1) =
      SchemaResolver.resolveF root (SchemaResolver.resolve root f) := rfl

/-- One-step unfolding of the fuelled loader. -/
theorem loadRun_succ (env : Env) (f : Nat) :
    ConfigLoader.loadRun env (f + 1) = ConfigLoader.loadStep env f (ConfigLoader.loadRun env f) :=
  rfl

/-- One-step unfolding of the fuelled extractor. -/
theorem extractRun_succ (env : Env) (f : Nat) :
    ConfigGenerator.extractRun env (f + 1) =
      ConfigGenerator.extractStep env (ConfigGenerator.extractRun env f) := rfl

/-- One-step unfolding of the fuelled block generator. -/
theorem genRun_succ (cfg : GeneratorConfig) (root : Schema) (rfuel f : Nat) :
    BlockGenerator.genRun cfg root rfuel (f + 1) =
      BlockGenerator.genStep cfg root rfuel (BlockGenerator.genRun cfg root rfuel f) := rfl

/-- C7 counterexample: a number-typed field whose raw value fails numeric
parsing is extracted as `NaN` and is therefore present, where the claim says
the field is absent (`some none` is the absent outcome). -/
theorem extract_numeric_nan_counterexample :
    ConfigGenerator.extractRun c7env 5 c7ws (.extractValue 0 "N" sNum "p")
      = some (some CVal.nan)
    ∧ (some (some CVal.nan) : Option (Option CVal)) ≠ some none :=
  ⟨rfl, by simp⟩

/-- C7 amended: during extraction, a string (or enum) field passes its raw
value through with the empty string and a missing raw value treated as
absent; a number/integer field with an empty or missing raw value is absent,
while a raw value that fails numeric parsing is extracted as `NaN` (present);
a boolean field maps the two-state representation to a native boolean. -/
theorem extract_scalar_coercion_amended :
    (∀ env (ws : WS) id fld s path f v,
      env.customExtractors.lookup fld = none →
      truthyLen s.oneOf = false → truthyLen s.anyOf = false →
      (s.enum.isSome || s.type == some (.one "string")) = true →
      ws.getField id fld = some v → v ≠ "" →
      ConfigGenerator.extractRun env (f + 1) ws (.extractValue id fld s path)
        = some (some (.str v)))
    ∧ (∀ env (ws : WS) id fld s path f,
      env.customExtractors.lookup fld = none →
      truthyLen s.oneOf = false → truthyLen s.anyOf = false →
      (s.enum.isSome || s.type == some (.one "string")) = true →
      (ws.getField id fld = some "" ∨ ws.getField id fld = none) →
      ConfigGenerator.extractRun env (f + 1) ws (.extractValue id fld s path) = some none)
    ∧ (∀ env (ws : WS) id fld s path f,
      env.customExtractors.lookup fld = none →
      truthyLen s.oneOf = false → truthyLen s.anyOf = false →
      s.enum = none →
      (s.type = some (.one "number") ∨ s.type = some (.one "integer")) →
      (ws.getField id fld = some "" ∨ ws.getField id fld = none) →
      ConfigGenerator.extractRun env (f + 1) ws (.extractValue id fld s path) = some none)
    ∧ (∀ env (ws : WS) id fld s path f v,
      env.customExtractors.lookup fld = none →
      truthyLen s.oneOf = false → truthyLen s.anyOf = false →
      s.enum = none →
      (s.type = some (.one "number") ∨ s.type = some (.one "integer")) →
      ws.getField id fld = some v → v ≠ "" →
      ConfigGenerator.extractRun env (f + 1) ws (.extractValue id fld s path)
        = some (some (match jsNumber v with | some n => .num n | none => .nan)))
    ∧ (∀ env (ws : WS) id fld s path f,
      env.customExtractors.lookup fld = none →
      truthyLen s.oneOf = false → truthyLen s.anyOf = false →
      s.enum = none → s.type = some (.one "boolean") →
      ConfigGenerator.extractRun env (f + 1) ws (.extractValue id fld s path)
        = some (some (.bool (ws.getField id fld == some "TRUE")))) := by
  refine ⟨?_, ?_, ?_, ?_, ?_⟩
  · intro env ws id fld s path f v hext hu1 hu2 hstr hf hv
    rw [extractRun_succ]
    unfold ConfigGenerator.extractStep
    simp [hext, hu1, hu2, hstr, hf, hv]
  · intro env ws id fld s path f hext hu1 hu2 hstr hf
    rw [extractRun_succ]
    unfold ConfigGenerator.extractStep
    cases hf with
    | inl h => simp [hext, hu1, hu2, hstr, h]
    | inr h => simp [hext, hu1, hu2, hstr, h]
  · intro env ws id fld s path f hext hu1 hu2 henum htype hf
    rw [extractRun_succ]
    unfold ConfigGenerator.extractStep
    cases htype with
    | inl h =>
      cases hf with
      | inl hx => simp [hext, hu1, hu2, henum, h, hx]
      | inr hx => simp [hext, hu1, hu2, henum, h, hx]
    | inr h =>
      cases hf with
      | inl hx => simp [hext, hu1, hu2, henum, h, hx]
      | inr hx => simp [hext, hu1, hu2, henum, h, hx]
  · intro env ws id fld s path f v hext hu1 hu2 henum htype hf hv
    rw [extractRun_succ]
    unfold ConfigGenerator.extractStep
    cases htype with
    | inl h => simp [hext, hu1, hu2, henum, h, hf, hv]
    | inr h => simp [hext, hu1, hu2, henum, h, hf, hv]
  · intro env ws id fld s path f hext hu1 hu2 henum htype
    rw [extractRun_succ]
    unfold ConfigGenerator.extractStep
    simp [hext, hu1, hu2, henum, htype]

/-- C7 witness: the amended coercion equations applied on a concrete block
(string passthrough, empty-string absence, numeric absence and `NaN`,
boolean reading). -/
theorem extract_scalar_coercion_amended_witness :
    ConfigGenerator.extractRun c7env 5 ⟨[⟨"b", [("S", "hi")], [], none⟩]⟩
      (.extractValue 0 "S" sStr "p") = some (some (.str "hi"))
    ∧ ConfigGenerator.extractRun c7env 5 ⟨[⟨"b", [("S", "")], [], none⟩]⟩
      (.extractValue 0 "S" sStr "p") = some none
    ∧ ConfigGenerator.extractRun c7env 5 ⟨[⟨"b", [("N", "")], [], none⟩]⟩
      (.extractValue 0 "N" sNum "p") = some none
    ∧ ConfigGenerator.extractRun c7env 5 c7ws
      (.extractValue 0 "N" sNum "p")
      = some (some (match jsNumber "abc" with | some n => .num n | none => .nan))
    ∧ ConfigGenerator.extractRun c7env 5 ⟨[⟨"b", [("B", "TRUE")], [], none⟩]⟩
      (.extractValue 0 "B" sBool "p")
      = some (some (.bool ((WS.getField ⟨[⟨"b", [("B", "TRUE")], [], none⟩]⟩ 0 "B") == some "TRUE"))) := by
  refine ⟨?_, ?_, ?_, ?_, ?_⟩
  · exact extract_scalar_coercion_amended.1 c7env _ 0 "S" sStr "p" 4 "hi"
      rfl rfl rfl rfl rfl (by simp)
  · exact extract_scalar_coercion_amended.2.1 c7env _ 0 "S" sStr "p" 4
      rfl rfl rfl rfl (Or.inl rfl)
  · exact extract_scalar_coercion_amended.2.2.1 c7env _ 0 "N" sNum "p" 4
      rfl rfl rfl rfl (Or.inl rfl) (Or.inl rfl)
  · exact extract_scalar_coercion_amended.2.2.2.1 c7env c7ws 0 "N" sNum "p" 4 "abc"
      rfl rfl rfl rfl (Or.inl rfl) rfl (by simp)
  · exact extract_scalar_coercion_amended.2.2.2.2 c7env _ 0 "B" sBool "p" 4
      rfl rfl rfl rfl rfl

/-- Lookup in the overridden-base half of a JS spread union: the base keys
keep their place, with the extension value replacing a shared key. -/
theorem lookup_map_override (bl el : List (String × Schema)) (k : String) :
    (bl.map (fun kv => (kv.1, ((el.lookup kv.1).getD kv.2)))).lookup k
      = (bl.lookup k).map (fun v => (el.lookup k).getD v) := by
  induction bl with
  | nil => rfl
  | cons kv bl ih =>
    by_cases h : k = kv.1
    · subst h
      simp [List.lookup]
    · simp [List.lookup, beq_false_of_ne h, ih]

/-- Lookup in the extension-only half of a JS spread union. -/
theorem lookup_filter_extonly (bl el : List (String × Schema)) (k : String) :
    (el.filter (fun kv => (bl.lookup kv.1).isNone)).lookup k
      = if (bl.lookup k).isNone then el.lookup k else none := by
  induction el with
  | nil => simp
  | cons kv el ih =>
    by_cases h : k = kv.1
    · subst h
      cases hb : (bl.lookup kv.1).isNone with
      | true => simp [List.filter, hb, List.lookup, ih]
      | false => simp [List.filter, hb, List.lookup, ih]
    · cases hb : (bl.lookup kv.1).isNone with
      | true => simp [List.filter, hb, List.lookup, beq_false_of_ne h, ih]
      | false => simp [List.filter, hb, ih, List.lookup, beq_false_of_ne h]

/-- Lookup across a list append. -/
theorem lookup_append (a b : List (String × Schema)) (k : String) :
    (a ++ b).lookup k = ((a.lookup k).orElse (fun _ => b.lookup k)) := by
  induction a with
  | nil => simp [Option.orElse]
  | cons kv a ih =>
    by_cases h : k = kv.1
    · subst h
      simp [List.lookup, Option.orElse]
    · simp [List.lookup, beq_false_of_ne h, ih]

/-- Lookup over the spread union `{...base, ...extension}` of two keyed maps:
the extension value wins on a shared key, the base value survives otherwise. -/
theorem mergeMap_lookup (b e : Option (List (String × Schema))) (k : String) :
    (SchemaResolver.mergeMap b e).lookup k
      = (((e.getD []).lookup k).orElse (fun _ => (b.getD []).lookup k)) := by
  unfold SchemaResolver.mergeMap
  rw [lookup_append, lookup_map_override, lookup_filter_extonly]
  cases hb : (b.getD []).lookup k with
  | none =>
    cases he : (e.getD []).lookup k with
    | none => simp [hb, he, Option.orElse]
    | some w => simp [hb, he, Option.orElse]
  | some v =>
    cases he : (e.getD []).lookup k with
    | none => simp [hb, he, Option.orElse]
    | some w => simp [hb, he, Option.orElse]

/-- Membership in the JS `Set` union used for `required`. -/
theorem mem_jsSetDedup (l : List String) : ∀ (seen : List String) (x : String),
    x ∈ SchemaResolver.jsSetDedup seen l ↔ (x ∈ l ∧ x ∉ seen) := by
  induction l with
  | nil => intro seen x; simp [SchemaResolver.jsSetDedup]
  | cons a l ih =>
    intro seen x
    unfold SchemaResolver.jsSetDedup
    by_cases ha : a ∈ seen
    · rw [if_pos ha, ih]
      by_cases hxa : x = a
      · subst hxa
        simp [List.mem_cons, ha]
      · simp [List.mem_cons, hxa]
    · rw [if_neg ha]
      by_cases hxa : x = a
      · subst hxa
        simp only [List.mem_cons, ih, List.mem_cons]
        simp [ha]
      · simp only [List.mem_cons, ih, List.mem_cons]
        simp [hxa]

/-- C2: resolving an `allOf` list merges the resolved branches left-to-right:
property maps union with the later branch winning on a shared key, the
required-name sets union, and `items`/`additionalProperties` take the later
branch when present, else the earlier. The closed conjunct resolves the
spec example and reads off properties `a`,`b` (both strings) and
`required = ["b"]`. -/
theorem allOf_merge_spec :
    (∀ b e k, ((SchemaResolver.mergeSchemas b e).properties.getD []).lookup k
      = (((e.properties.getD []).lookup k).orElse
          (fun _ => (b.properties.getD []).lookup k)))
    ∧ (∀ b e x, x ∈ ((SchemaResolver.mergeSchemas b e).required.getD [])
      ↔ (x ∈ b.required.getD [] ∨ x ∈ e.required.getD []))
    ∧ (∀ b e, (SchemaResolver.mergeSchemas b e).items
      = (e.items.orElse (fun _ => b.items)))
    ∧ (∀ b e, (SchemaResolver.mergeSchemas b e).additionalProperties
      = (e.additionalProperties.orElse (fun _ => b.additionalProperties)))
    ∧ (SchemaResolver.resolve Schema.emptyS 10 allOfExample []).toOption.map
        (fun r => ((r.properties.getD []).map Prod.fst,
                   ((r.properties.getD []).lookup "a").map Schema.type,
                   ((r.properties.getD []).lookup "b").map Schema.type,
                   r.required))
      = some (["a", "b"], some (some (.one "string")), some (some (.one "string")),
              some ["b"]) := by
  refine ⟨?_, ?_, ?_, ?_, by rfl⟩
  · intro b e k
    have : (SchemaResolver.mergeSchemas b e).properties
        = some (SchemaResolver.mergeMap b.properties e.properties) := rfl
    rw [this]
    simpa using mergeMap_lookup b.properties e.properties k
  · intro b e x
    have hreq : (SchemaResolver.mergeSchemas b e).required
        = (if b.required.isSome || e.required.isSome then
            some (SchemaResolver.jsSetDedup []
              ((b.required.getD []) ++ (e.required.getD []))) else none) := rfl
    rw [hreq]
    cases hb : b.required with
    | none =>
      cases he : e.required with
      | none => simp
      | some el => simp [mem_jsSetDedup]
    | some bl =>
      cases he : e.required with
      | none => simp [mem_jsSetDedup]
      | some el => simp [mem_jsSetDedup]
  · intro b e
    rfl
  · intro b e
    rfl

/-- C3: re-entering a pointer that is still on the resolution stack raises
the circular-reference error immediately (first conjunct, for every schema,
stack and fuel). On the concrete self-referential document the resolver
answers the circular-reference error at every sufficient fuel budget — the
result is independent of the remaining fuel, so the recursion is bounded —
while a pointer dereferenced twice sequentially (each resolution completing
before the next) resolves without error. -/
theorem circular_ref_detection :
    (∀ root f s stack p, s.ref = some p → p ≠ "" → p ∈ stack →
      SchemaResolver.resolve root (f + 1) s stack = .error (.circular p))
    ∧ (∀ n, SchemaResolver.resolve cyclicSchema (n + 2) cyclicSchema []
        = .error (.circular "#/definitions/a"))
    ∧ (SchemaResolver.resolve diamondSchema 9 diamondSchema []).isOk = true := by
  refine ⟨?_, fun n => by rfl, by rfl⟩
  intro root f s stack p href hp hmem
  rw [resolve_succ]
  unfold SchemaResolver.resolveF
  simp [SchemaResolver.cloneSchema, href, truthyStr, hp, hmem]

/-- C3 witness: the re-entry guard applied to a concrete schema whose pointer
is already on the stack. -/
theorem circular_ref_detection_witness :
    SchemaResolver.resolve Schema.emptyS 1 (.mk { ref := some "#/x" }) ["#/x"]
      = .error (.circular "#/x") :=
  circular_ref_detection.1 Schema.emptyS 0 (.mk { ref := some "#/x" }) ["#/x"] "#/x"
    rfl (by simp) (by simp)
/-- Every schema node has positive size. -/
theorem schema_sizeOf_pos (s : Schema) : 1 ≤ sizeOf s := by
  cases s with
  | mk fr => simp

/-- A `oneOf` branch is smaller than its parent node. -/
theorem sz_oneOf_mem {s : Schema} {x : Schema} (hx : x ∈ s.oneOf.getD []) :
    sizeOf x < sizeOf s := by
  cases s with
  | mk fr =>
    obtain ⟨t, d, ty, mi, ma, pr, it, rq, en, co, df, fo, ap, de, re, oo, ao, al⟩ := fr
    cases oo with
    | none => simp [Schema.oneOf, Schema.f] at hx
    | some l =>
      simp only [Schema.oneOf, Schema.f, Option.getD_some] at hx
      have := List.sizeOf_lt_of_mem hx
      simp
      omega

/-- An `anyOf` branch is smaller than its parent node. -/
theorem sz_anyOf_mem {s : Schema} {x : Schema} (hx : x ∈ s.anyOf.getD []) :
    sizeOf x < sizeOf s := by
  cases s with
  | mk fr =>
    obtain ⟨t, d, ty, mi, ma, pr, it, rq, en, co, df, fo, ap, de, re, oo, ao, al⟩ := fr
    cases ao with
    | none => simp [Schema.anyOf, Schema.f] at hx
    | some l =>
      simp only [Schema.anyOf, Schema.f, Option.getD_some] at hx
      have := List.sizeOf_lt_of_mem hx
      simp
      omega

/-- A property schema is smaller than its parent node. -/
theorem sz_props_mem {s : Schema} {kv : String × Schema}
    (hx : kv ∈ s.properties.getD []) : sizeOf kv.2 < sizeOf s := by
  cases s with
  | mk fr =>
    obtain ⟨t, d, ty, mi, ma, pr, it, rq, en, co, df, fo, ap, de, re, oo, ao, al⟩ := fr
    cases pr with
    | none => simp [Schema.properties, Schema.f] at hx
    | some l =>
      simp only [Schema.properties, Schema.f, Option.getD_some] at hx
      have h1 := List.sizeOf_lt_of_mem hx
      obtain ⟨k, v⟩ := kv
      simp at h1 ⊢
      omega

/-- A single `items` schema is smaller than its parent node. -/
theorem sz_items_inl {s : Schema} {x : Schema} (hx : s.items = some (Sum.inl x)) :
    sizeOf x < sizeOf s := by
  cases s with
  | mk fr =>
    obtain ⟨t, d, ty, mi, ma, pr, it, rq, en, co, df, fo, ap, de, re, oo, ao, al⟩ := fr
    simp only [Schema.items, Schema.f] at hx
    subst hx
    simp
    omega

/-- A tuple-form `items` schema is smaller than its parent node. -/
theorem sz_items_inr_mem {s : Schema} {l : List Schema} {x : Schema}
    (hl : s.items = some (Sum.inr l)) (hx : x ∈ l) : sizeOf x < sizeOf s := by
  cases s with
  | mk fr =>
    obtain ⟨t, d, ty, mi, ma, pr, it, rq, en, co, df, fo, ap, de, re, oo, ao, al⟩ := fr
    simp only [Schema.items, Schema.f] at hl
    subst hl
    have := List.sizeOf_lt_of_mem hx
    simp
    omega

/-- An object-valued `additionalProperties` schema is smaller than its
parent node. -/
theorem sz_addP {s : Schema} {x : Schema}
    (hx : s.additionalProperties = some (Sum.inr x)) : sizeOf x < sizeOf s := by
  cases s with
  | mk fr =>
    obtain ⟨t, d, ty, mi, ma, pr, it, rq, en, co, df, fo, ap, de, re, oo, ao, al⟩ := fr
    simp only [Schema.additionalProperties, Schema.f] at hx
    subst hx
    simp
    omega

/-- Bind on `Except` out of an `ok`. -/
theorem ok_bind {ε α β : Type} (a : α) (f : α → Except ε β) :
    (Except.ok a : Except ε α) >>= f = f a := rfl

/-- Inversion of a successful `Except` bind. -/
theorem exceptBind_ok {ε α β : Type} {x : Except ε α} {f : α → Except ε β} {r : β}
    (h : x >>= f = .ok r) : ∃ a, x = .ok a ∧ f a = .ok r := by
  cases x with
  | error e => exact absurd h (by simp [Bind.bind, Except.bind])
  | ok a => exact ⟨a, rfl, h⟩

/-- A pure `Except` value read back. -/
theorem except_pure_ok {ε α : Type} {a r : α}
    (h : (pure a : Except ε α) = .ok r) : r = a := by
  cases h
  rfl

/-- `mapM` over element-fixing functions is the identity. -/
theorem mapM_ok_id {ε α : Type} (xs : List α) (f : α → Except ε α)
    (h : ∀ x ∈ xs, f x = .ok x) : xs.mapM f = .ok xs := by
  induction xs with
  | nil => rfl
  | cons a l ih =>
    rw [List.mapM_cons, h a (List.mem_cons_self a l), ok_bind,
      ih (fun x hx => h x (List.mem_cons_of_mem a hx)), ok_bind]
    rfl

/-- Every element of a successful `mapM` image comes from a successful
application. -/
theorem mapM_ok_mem {ε α β : Type} (xs : List α) (f : α → Except ε β) (ys : List β)
    (h : xs.mapM f = .ok ys) : ∀ y ∈ ys, ∃ x ∈ xs, f x = .ok y := by
  induction xs generalizing ys with
  | nil =>
    intro y hy
    have : ys = [] := by
      have h' : (pure [] : Except ε (List β)) = .ok ys := h
      exact (except_pure_ok h').symm ▸ rfl
    subst this
    simp at hy
  | cons a l ih =>
    rw [List.mapM_cons] at h
    obtain ⟨b, hb, h⟩ := exceptBind_ok h
    obtain ⟨bs, hbs, h⟩ := exceptBind_ok h
    have hys : ys = b :: bs := (except_pure_ok h).symm ▸ rfl
    subst hys
    intro y hy
    rcases List.mem_cons.mp hy with h1 | h2
    · exact ⟨a, List.mem_cons_self a l, h1 ▸ hb⟩
    · obtain ⟨x, hx, hfx⟩ := ih bs hbs y h2
      exact ⟨x, List.mem_cons_of_mem a hx, hfx⟩

/-- The `oneOf` pass of the structural case fixes an already-resolved list. -/
theorem structOneOf_ok (recur : Schema → List String → Except RErr Schema)
    (r : Schema) (stack : List String)
    (h1 : ∀ x ∈ r.oneOf.getD [], recur x stack = .ok x) :
    SchemaResolver.oneOfPass recur r stack = .ok r.oneOf := by
  unfold SchemaResolver.oneOfPass
  cases ho : r.oneOf with
  | none => rfl
  | some l =>
    rw [ho] at h1
    cases l with
    | nil => rfl
    | cons a t =>
      have hm : (a :: t).mapM (fun o => recur o stack) = .ok (a :: t) :=
        mapM_ok_id _ _ (fun x hx => h1 x (by simpa using hx))
      show ((a :: t).mapM (fun o => recur o stack) >>= fun l' => pure (some l'))
        = Except.ok (some (a :: t))
      rw [hm, ok_bind]
      rfl

/-- The `anyOf` pass of the structural case fixes an already-resolved list. -/
theorem structAnyOf_ok (recur : Schema → List String → Except RErr Schema)
    (r : Schema) (stack : List String)
    (h2 : ∀ x ∈ r.anyOf.getD [], recur x stack = .ok x) :
    SchemaResolver.anyOfPass recur r stack = .ok r.anyOf := by
  unfold SchemaResolver.anyOfPass
  cases ho : r.anyOf with
  | none => rfl
  | some l =>
    rw [ho] at h2
    cases l with
    | nil => rfl
    | cons a t =>
      have hm : (a :: t).mapM (fun o => recur o stack) = .ok (a :: t) :=
        mapM_ok_id _ _ (fun x hx => h2 x (by simpa using hx))
      show ((a :: t).mapM (fun o => recur o stack) >>= fun l' => pure (some l'))
        = Except.ok (some (a :: t))
      rw [hm, ok_bind]
      rfl

/-- The property pass of the structural case fixes already-resolved
property schemas. -/
theorem structProps_ok (recur : Schema → List String → Except RErr Schema)
    (r : Schema) (stack : List String)
    (h3 : ∀ kv ∈ r.properties.getD [], recur kv.2 stack = .ok kv.2) :
    SchemaResolver.propsPass recur r stack = .ok r.properties := by
  unfold SchemaResolver.propsPass
  cases ho : r.properties with
  | none => rfl
  | some entries =>
    rw [ho] at h3
    have hm : entries.mapM (fun kv => do
        let v' ← recur kv.2 stack
        pure (kv.1, v')) = .ok entries := by
      refine mapM_ok_id _ _ (fun kv hkv => ?_)
      show (recur kv.2 stack >>= fun v' => pure (kv.1, v')) = .ok kv
      rw [h3 kv (by simpa using hkv), ok_bind]
      rfl
    show (entries.mapM (fun kv => do
        let v' ← recur kv.2 stack
        pure (kv.1, v')) >>= fun entries' => pure (some entries'))
      = Except.ok (some entries)
    rw [hm, ok_bind]
    rfl

/-- The `items` pass of the structural case fixes already-resolved item
schemas. -/
theorem structItems_ok (recur : Schema → List String → Except RErr Schema)
    (r : Schema) (stack : List String)
    (h4 : ∀ x, r.items = some (Sum.inl x) → recur x stack = .ok x)
    (h5 : ∀ l x, r.items = some (Sum.inr l) → x ∈ l → recur x stack = .ok x) :
    SchemaResolver.itemsPass recur r stack = .ok r.items := by
  unfold SchemaResolver.itemsPass
  cases ho : r.items with
  | none => rfl
  | some sl =>
    cases sl with
    | inl it =>
      show (recur it stack >>= fun it' => pure (some (Sum.inl it')))
        = Except.ok (some (Sum.inl it))
      rw [h4 it ho, ok_bind]
      rfl
    | inr l =>
      have hm : l.mapM (fun it => recur it stack) = .ok l :=
        mapM_ok_id _ _ (fun x hx => h5 l x ho hx)
      show (l.mapM (fun it => recur it stack) >>= fun l' => pure (some (Sum.inr l')))
        = Except.ok (some (Sum.inr l))
      rw [hm, ok_bind]
      rfl

/-- The `additionalProperties` pass of the structural case fixes an
already-resolved schema. -/
theorem structAddP_ok (recur : Schema → List String → Except RErr Schema)
    (r : Schema) (stack : List String)
    (h6 : ∀ x, r.additionalProperties = some (Sum.inr x) → recur x stack = .ok x) :
    SchemaResolver.addPPass recur r stack = .ok r.additionalProperties := by
  unfold SchemaResolver.addPPass
  cases ho : r.additionalProperties with
  | none => rfl
  | some sl =>
    cases sl with
    | inl b => rfl
    | inr ap =>
      show (recur ap stack >>= fun ap' => pure (some (Sum.inr ap')))
        = Except.ok (some (Sum.inr ap))
      rw [h6 ap ho, ok_bind]
      rfl

/-- Resolving the structural pass over a node whose recursive positions are
all fixed by `recur` returns the node unchanged. -/
theorem resolveStructural_id (recur : Schema → List String → Except RErr Schema)
    (r : Schema) (stack : List String)
    (h1 : ∀ x ∈ r.oneOf.getD [], recur x stack = .ok x)
    (h2 : ∀ x ∈ r.anyOf.getD [], recur x stack = .ok x)
    (h3 : ∀ kv ∈ r.properties.getD [], recur kv.2 stack = .ok kv.2)
    (h4 : ∀ x, r.items = some (Sum.inl x) → recur x stack = .ok x)
    (h5 : ∀ l x, r.items = some (Sum.inr l) → x ∈ l → recur x stack = .ok x)
    (h6 : ∀ x, r.additionalProperties = some (Sum.inr x) → recur x stack = .ok x) :
    SchemaResolver.resolveStructural recur r stack = .ok r := by
  unfold SchemaResolver.resolveStructural
  rw [structOneOf_ok recur r stack h1, ok_bind,
    structAnyOf_ok recur r stack h2, ok_bind,
    structProps_ok recur r stack h3, ok_bind,
    structItems_ok recur r stack h4 h5, ok_bind,
    structAddP_ok recur r stack h6, ok_bind]
  cases r with
  | mk fr => rfl

/-- Resolving a canonical node with enough fuel returns it unchanged, on any
stack. -/
theorem resolve_canon_id : ∀ (f : Nat) (root r : Schema) (stack : List String),
    Canon r → sizeOf r ≤ f → SchemaResolver.resolve root f r stack = .ok r := by
  intro f
  induction f with
  | zero =>
    intro root r stack _ hsz
    have := schema_sizeOf_pos r
    omega
  | succ f ih =>
    intro root r stack hc hsz
    obtain ⟨s, href, hallOf, honeOf, hanyOf, hprops, hit1, hit2, haddP⟩ := hc
    rw [resolve_succ]
    unfold SchemaResolver.resolveF
    simp only [SchemaResolver.cloneSchema, href, hallOf, Bool.false_eq_true, if_false]
    refine resolveStructural_id _ _ _ ?_ ?_ ?_ ?_ ?_ ?_
    · intro x hx
      exact ih root x stack (honeOf x hx) (by have := sz_oneOf_mem hx; omega)
    · intro x hx
      exact ih root x stack (hanyOf x hx) (by have := sz_anyOf_mem hx; omega)
    · intro kv hkv
      exact ih root kv.2 stack (hprops kv hkv) (by have := sz_props_mem hkv; omega)
    · intro x hx
      exact ih root x stack (hit1 x hx) (by have := sz_items_inl hx; omega)
    · intro l x hl hx
      exact ih root x stack (hit2 l x hl hx) (by have := sz_items_inr_mem hl hx; omega)
    · intro x hx
      exact ih root x stack (haddP x hx) (by have := sz_addP hx; omega)

/-- Elements produced by the `oneOf` pass are resolver outputs (or the pass
was skipped and the list is empty). -/
theorem oneOfPass_canon (recur : Schema → List String → Except RErr Schema)
    (s : Schema) (stack : List String) (o' : Option (List Schema))
    (hrec : ∀ s' stack' r', recur s' stack' = .ok r' → Canon r')
    (h : SchemaResolver.oneOfPass recur s stack = .ok o') :
    ∀ x ∈ o'.getD [], Canon x := by
  unfold SchemaResolver.oneOfPass at h
  by_cases ht : truthyLen s.oneOf
  · rw [if_pos ht] at h
    obtain ⟨l', hm, hp⟩ := exceptBind_ok h
    have ho : o' = some l' := except_pure_ok hp
    subst ho
    intro x hx
    obtain ⟨x0, _, hfx⟩ := mapM_ok_mem _ _ _ hm x (by simpa using hx)
    exact hrec x0 stack x hfx
  · rw [if_neg ht] at h
    have ho : o' = s.oneOf := except_pure_ok h
    subst ho
    intro x hx
    cases hs : s.oneOf with
    | none => rw [hs] at hx; simp at hx
    | some l =>
      rw [hs] at hx ht
      cases l with
      | nil => simp at hx
      | cons a t => simp [truthyLen] at ht

/-- Elements produced by the `anyOf` pass are resolver outputs (or the pass
was skipped and the list is empty). -/
theorem anyOfPass_canon (recur : Schema → List String → Except RErr Schema)
    (s : Schema) (stack : List String) (o' : Option (List Schema))
    (hrec : ∀ s' stack' r', recur s' stack' = .ok r' → Canon r')
    (h : SchemaResolver.anyOfPass recur s stack = .ok o') :
    ∀ x ∈ o'.getD [], Canon x := by
  unfold SchemaResolver.anyOfPass at h
  by_cases ht : truthyLen s.anyOf
  · rw [if_pos ht] at h
    obtain ⟨l', hm, hp⟩ := exceptBind_ok h
    have ho : o' = some l' := except_pure_ok hp
    subst ho
    intro x hx
    obtain ⟨x0, _, hfx⟩ := mapM_ok_mem _ _ _ hm x (by simpa using hx)
    exact hrec x0 stack x hfx
  · rw [if_neg ht] at h
    have ho : o' = s.anyOf := except_pure_ok h
    subst ho
    intro x hx
    cases hs : s.anyOf with
    | none => rw [hs] at hx; simp at hx
    | some l =>
      rw [hs] at hx ht
      cases l with
      | nil => simp at hx
      | cons a t => simp [truthyLen] at ht

/-- Property values produced by the property pass are resolver outputs. -/
theorem propsPass_canon (recur : Schema → List String → Except RErr Schema)
    (s : Schema) (stack : List String) (p' : Option (List (String × Schema)))
    (hrec : ∀ s' stack' r', recur s' stack' = .ok r' → Canon r')
    (h : SchemaResolver.propsPass recur s stack = .ok p') :
    ∀ kv ∈ p'.getD [], Canon kv.2 := by
  unfold SchemaResolver.propsPass at h
  cases hs : s.properties with
  | none =>
    rw [hs] at h
    have hp : p' = none := except_pure_ok h
    subst hp
    intro kv hkv
    simp at hkv
  | some entries =>
    rw [hs] at h
    obtain ⟨entries', hm, hp⟩ := exceptBind_ok h
    have hp' : p' = some entries' := except_pure_ok hp
    subst hp'
    intro kv hkv
    obtain ⟨kv0, _, hfx⟩ := mapM_ok_mem _ _ _ hm kv (by simpa using hkv)
    obtain ⟨v', hv, hpure⟩ := exceptBind_ok hfx
    have : kv = (kv0.1, v') := except_pure_ok hpure
    subst this
    exact hrec kv0.2 stack v' hv

/-- Item schemas produced by the `items` pass are resolver outputs. -/
theorem itemsPass_canon (recur : Schema → List String → Except RErr Schema)
    (s : Schema) (stack : List String) (it' : Option (Schema ⊕ List Schema))
    (hrec : ∀ s' stack' r', recur s' stack' = .ok r' → Canon r')
    (h : SchemaResolver.itemsPass recur s stack = .ok it') :
    (∀ x, it' = some (Sum.inl x) → Canon x)
    ∧ (∀ l x, it' = some (Sum.inr l) → x ∈ l → Canon x) := by
  unfold SchemaResolver.itemsPass at h
  cases hs : s.items with
  | none =>
    rw [hs] at h
    have hp : it' = none := except_pure_ok h
    subst hp
    exact ⟨fun x hx => by simp at hx, fun l x hl => by simp at hl⟩
  | some sl =>
    rw [hs] at h
    cases sl with
    | inl it =>
      obtain ⟨it0, hit, hp⟩ := exceptBind_ok h
      have hp' : it' = some (Sum.inl it0) := except_pure_ok hp
      subst hp'
      constructor
      · intro x hx
        cases hx
        exact hrec it stack it0 hit
      · intro l x hl
        simp at hl
    | inr l =>
      obtain ⟨l', hm, hp⟩ := exceptBind_ok h
      have hp' : it' = some (Sum.inr l') := except_pure_ok hp
      subst hp'
      constructor
      · intro x hx
        simp at hx
      · intro l0 x hl hx
        have : l0 = l' := by
          injection hl with h1
          injection h1 with h2
          exact h2.symm
        subst this
        obtain ⟨x0, _, hfx⟩ := mapM_ok_mem _ _ _ hm x hx
        exact hrec x0 stack x hfx

/-- The `additionalProperties` pass yields a resolver output in the
object-valued case. -/
theorem addPPass_canon (recur : Schema → List String → Except RErr Schema)
    (s : Schema) (stack : List String) (a' : Option (Bool ⊕ Schema))
    (hrec : ∀ s' stack' r', recur s' stack' = .ok r' → Canon r')
    (h : SchemaResolver.addPPass recur s stack = .ok a') :
    ∀ x, a' = some (Sum.inr x) → Canon x := by
  unfold SchemaResolver.addPPass at h
  cases hs : s.additionalProperties with
  | none =>
    rw [hs] at h
    have hp : a' = none := except_pure_ok h
    subst hp
    intro x hx
    simp at hx
  | some sl =>
    rw [hs] at h
    cases sl with
    | inl b =>
      have hp : a' = some (Sum.inl b) := except_pure_ok h
      subst hp
      intro x hx
      simp at hx
    | inr ap =>
      obtain ⟨ap', hap, hp⟩ := exceptBind_ok h
      have hp' : a' = some (Sum.inr ap') := except_pure_ok hp
      subst hp'
      intro x hx
      have : x = ap' := by
        injection hx with h1
        injection h1 with h2
        exact h2.symm
      subst this
      exact hrec ap stack x hap

/-- The structural pass maps canonical-producing recursion to a canonical
result (given the node had no truthy `$ref` or nonempty `allOf`). -/
theorem resolveStructural_ok_canon (recur : Schema → List String → Except RErr Schema)
    (s : Schema) (stack : List String) (r : Schema)
    (hrec : ∀ s' stack' r', recur s' stack' = .ok r' → Canon r')
    (href : truthyStr s.ref = false) (hallOf : truthyLen s.allOf = false)
    (h : SchemaResolver.resolveStructural recur s stack = .ok r) : Canon r := by
  unfold SchemaResolver.resolveStructural at h
  obtain ⟨oneOf', h1, h⟩ := exceptBind_ok h
  obtain ⟨anyOf', h2, h⟩ := exceptBind_ok h
  obtain ⟨properties', h3, h⟩ := exceptBind_ok h
  obtain ⟨items', h4, h⟩ := exceptBind_ok h
  obtain ⟨addP', h5, h⟩ := exceptBind_ok h
  have hr : r = .mk { s.f with
      oneOf := oneOf', anyOf := anyOf', properties := properties',
      items := items', additionalProperties := addP' } := except_pure_ok h
  subst hr
  have hits := itemsPass_canon recur s stack items' hrec h4
  exact Canon.intro _ href hallOf
    (oneOfPass_canon recur s stack oneOf' hrec h1)
    (anyOfPass_canon recur s stack anyOf' hrec h2)
    (propsPass_canon recur s stack properties' hrec h3)
    hits.1 hits.2
    (addPPass_canon recur s stack addP' hrec h5)

/-- Every successful resolver output is canonical. -/
theorem resolve_ok_canon : ∀ (f : Nat) (root s : Schema) (stack : List String)
    (r : Schema), SchemaResolver.resolve root f s stack = .ok r → Canon r := by
  intro f
  induction f with
  | zero =>
    intro root s stack r h
    exact absurd h (by simp [SchemaResolver.resolve])
  | succ f ih =>
    intro root s stack r h
    rw [resolve_succ] at h
    unfold SchemaResolver.resolveF at h
    simp only [SchemaResolver.cloneSchema] at h
    by_cases hr : truthyStr s.ref
    · rw [if_pos hr] at h
      by_cases hmem : (s.ref.getD "") ∈ stack
      · rw [if_pos hmem] at h
        exact absurd h (by simp)
      · rw [if_neg hmem] at h
        obtain ⟨referenced, _, h⟩ := exceptBind_ok h
        obtain ⟨resolvedRef, _, h⟩ := exceptBind_ok h
        exact ih root _ stack r h
    · rw [if_neg hr] at h
      by_cases ha : truthyLen s.allOf
      · rw [if_pos ha] at h
        obtain ⟨merged, _, h⟩ := exceptBind_ok h
        exact ih root merged stack r h
      · rw [if_neg ha] at h
        exact resolveStructural_ok_canon _ s stack r
          (fun s' stack' r' h' => ih root s' stack' r' h')
          (Bool.not_eq_true _ ▸ hr) (Bool.not_eq_true _ ▸ ha) h

/-- C6: resolution is idempotent. Any successful `resolve` output `r` is
canonical, and re-resolving it (with any fuel at least its size, on any
pointer stack, against any root document) returns `r` itself, so
`resolve (resolve schema)` equals `resolve schema`. -/
theorem resolve_idempotent (root : Schema) (f : Nat) (s : Schema) (stack : List String)
    (r : Schema) (f' : Nat) (root' : Schema) (stack' : List String)
    (h : SchemaResolver.resolve root f s stack = .ok r) (hsz : sizeOf r ≤ f') :
    SchemaResolver.resolve root' f' r stack' = .ok r :=
  resolve_canon_id f' root' r stack' (resolve_ok_canon f root s stack r h) hsz

/-- C6 witness: the resolved allOf example re-resolves to itself. -/
theorem resolve_idempotent_witness :
    SchemaResolver.resolve Schema.emptyS 100000
      ((SchemaResolver.resolve Schema.emptyS 10 allOfExample []).toOption.getD Schema.emptyS)
      []
      = .ok ((SchemaResolver.resolve Schema.emptyS 10 allOfExample []).toOption.getD
          Schema.emptyS) :=
  resolve_idempotent Schema.emptyS 10 allOfExample [] _ 100000 Schema.emptyS []
    (by rfl) (by decide)

/-- Inversion of a successful `Option` bind. -/
theorem optionBind_some {α β : Type} {x : Option α} {f : α → Option β} {r : β}
    (h : x >>= f = some r) : ∃ a, x = some a ∧ f a = some r := by
  cases x with
  | none => exact absurd h (by simp)
  | some a => exact ⟨a, rfl, h⟩

/-- The property loop of the extractor always produces an object value. -/
theorem configProps_shape (env : Env) : ∀ (f : Nat) (ws : WS) (id : Nat)
    (pending : List (String × Schema)) (path : String) (v? : Option CVal),
    ConfigGenerator.extractRun env f ws (.configProps id pending path) = some v? →
    ∃ e, v? = some (.obj e) := by
  intro f
  cases f with
  | zero =>
    intro ws id pending path v? h
    exact absurd h (by simp [ConfigGenerator.extractRun])
  | succ f =>
    intro ws id pending path v? h
    rw [extractRun_succ] at h
    cases pending with
    | nil =>
      cases h
      exact ⟨[], rfl⟩
    | cons kv rest =>
      obtain ⟨propName, propSchema⟩ := kv
      unfold ConfigGenerator.extractStep at h
      obtain ⟨value, hval, h⟩ := optionBind_some h
      obtain ⟨restVal, hrest, h⟩ := optionBind_some h
      cases h
      exact ⟨_, rfl⟩

/-- The built-in extraction of a boolean-typed field (no custom extractor,
no union branches, no enum) always yields a native boolean, true exactly
when the raw field value is the string `TRUE`. -/
theorem extractValue_bool_eq (env : Env) (ws : WS) (id : Nat) (fld : String)
    (s : Schema) (path : String) (f : Nat)
    (hext : env.customExtractors.lookup fld = none)
    (hu1 : truthyLen s.oneOf = false) (hu2 : truthyLen s.anyOf = false)
    (henum : s.enum = none) (htype : s.type = some (.one "boolean")) :
    ConfigGenerator.extractRun env (f + 1) ws (.extractValue id fld s path)
      = some (some (.bool (ws.getField id fld == some "TRUE"))) := by
  rw [extractRun_succ]
  unfold ConfigGenerator.extractStep
  simp [hext, hu1, hu2, henum, htype]

/-- In the property loop of `blockToConfig`, a boolean-typed property (with
distinct property names, no custom extractor, no union, no enum) is always
emitted with its native boolean value — regardless of the missing-field
policy flags carried by the environment. -/
theorem configProps_bool_present (env : Env) (ws : WS) (id : Nat) :
    ∀ (pending : List (String × Schema)) (f : Nat) (path : String)
    (p : String) (ps : Schema) (entries : List (String × CVal)),
    (p, ps) ∈ pending → (pending.map Prod.fst).Nodup →
    env.customExtractors.lookup (jsToUpper p) = none →
    truthyLen ps.oneOf = false → truthyLen ps.anyOf = false →
    ps.enum = none → ps.type = some (.one "boolean") →
    ConfigGenerator.extractRun env f ws (.configProps id pending path)
      = some (some (.obj entries)) →
    entries.lookup p = some (.bool (ws.getField id (jsToUpper p) == some "TRUE")) := by
  intro pending
  induction pending with
  | nil =>
    intro f path p ps entries hmem
    simp at hmem
  | cons head rest ih =>
    intro f path p ps entries hmem hnodup hext hu1 hu2 henum htype h
    obtain ⟨q, qs⟩ := head
    cases f with
    | zero => exact absurd h (by simp [ConfigGenerator.extractRun])
    | succ f =>
      rw [extractRun_succ] at h
      unfold ConfigGenerator.extractStep at h
      obtain ⟨value, hval, h⟩ := optionBind_some h
      obtain ⟨restVal, hrest, h⟩ := optionBind_some h
      obtain ⟨er, herShape⟩ := configProps_shape env f ws id rest path restVal hrest
      subst herShape
      simp only [Option.some.injEq, CVal.obj.injEq] at h
      subst h
      rcases List.mem_cons.mp hmem with hhead | htail
      · have hp : p = q := congrArg Prod.fst hhead
        have hs : ps = qs := congrArg Prod.snd hhead
        subst hp
        subst hs
        cases f with
        | zero => exact absurd hval (by simp [ConfigGenerator.extractRun])
        | succ f0 =>
          rw [extractValue_bool_eq env ws id (jsToUpper p) ps
            (path ++ "_" ++ p) f0 hext hu1 hu2 henum htype] at hval
          have hv : value = some (.bool (ws.getField id (jsToUpper p) == some "TRUE")) := by
            injection hval with hv
            exact hv.symm
          subst hv
          simp [ConfigGenerator.propPolicyEntries, List.lookup]
      · have hq : q ∉ rest.map Prod.fst := (List.nodup_cons.mp hnodup).1
        have hpq : p ≠ q := by
          intro hcon
          subst hcon
          exact hq (List.mem_map_of_mem Prod.fst htail)
        have hrec := ih f path p ps er htail (List.nodup_cons.mp hnodup).2
          hext hu1 hu2 henum htype hrest
        have hlq : ∀ (x : CVal) (l : List (String × CVal)),
            List.lookup p ((q, x) :: l) = List.lookup p l := by
          intro x l
          simp [List.lookup, beq_false_of_ne hpq]
        unfold ConfigGenerator.propPolicyEntries
        cases value with
        | some v =>
          by_cases hn : v = CVal.null
          · subst hn
            by_cases hd : env.includeDefaults && qs.default.isSome
            · simp [hd, hlq, hrec]
            · by_cases hi : env.includeNulls
              · simp [hd, hi, hlq, hrec]
              · simp [hd, hi, hrec]
          · have hn' : (match v with | CVal.null => true | _ => false) = false := by
              cases v <;> first | rfl | exact absurd rfl hn
            simp only [hn']
            simp [hlq, hrec]
        | none =>
          by_cases hd : env.includeDefaults && qs.default.isSome
          · simp [hd, hlq, hrec]
          · by_cases hi : env.includeNulls
            · simp [hd, hi, hlq, hrec]
            · simp [hd, hi, hrec]

/-- C9: extraction of a boolean-typed field (built-in path: no custom
extractor, no union, no enum) always yields a native boolean — a missing,
null or unset raw value reads as `false` — and in the `blockToConfig` loop
such a property is always emitted with that boolean, so the missing-field
policy flags never decide a boolean field. -/
theorem boolean_field_always_present :
    (∀ env (ws : WS) id fld s path f,
      env.customExtractors.lookup fld = none →
      truthyLen s.oneOf = false → truthyLen s.anyOf = false →
      s.enum = none → s.type = some (.one "boolean") →
      ConfigGenerator.extractRun env (f + 1) ws (.extractValue id fld s path)
        = some (some (.bool (ws.getField id fld == some "TRUE"))))
    ∧ (∀ env (ws : WS) id pending f path p ps entries,
      (p, ps) ∈ pending → (List.map Prod.fst pending).Nodup →
      env.customExtractors.lookup (jsToUpper p) = none →
      truthyLen ps.oneOf = false → truthyLen ps.anyOf = false →
      ps.enum = none → ps.type = some (.one "boolean") →
      ConfigGenerator.extractRun env f ws (.configProps id pending path)
        = some (some (.obj entries)) →
      entries.lookup p = some (.bool (ws.getField id (jsToUpper p) == some "TRUE"))) :=
  ⟨fun env ws id fld s path f hext hu1 hu2 henum htype =>
    extractValue_bool_eq env ws id fld s path f hext hu1 hu2 henum htype,
   fun env ws id pending f path p ps entries hmem hnodup hext hu1 hu2 henum htype h =>
    configProps_bool_present env ws id pending f path p ps entries hmem hnodup
      hext hu1 hu2 henum htype h⟩

/-- C9 witness: the two conjuncts applied on a concrete block whose boolean
field is unset (reading `false`) and one whose property loop emits the
boolean under the omit policy. -/
theorem boolean_field_always_present_witness :
    ConfigGenerator.extractRun c7env 5 c7ws (.extractValue 0 "FLAG" sBool "p")
      = some (some (.bool false))
    ∧ List.lookup "flag" [("flag", CVal.bool true)]
      = some (.bool ((WS.getField ⟨[⟨"b", [("FLAG", "TRUE")], [], none⟩]⟩ 0 (jsToUpper "flag"))
          == some "TRUE")) := by
  constructor
  · have h := boolean_field_always_present.1 c7env c7ws 0 "FLAG" sBool "p" 4
      rfl rfl rfl rfl rfl
    simpa using h
  · exact boolean_field_always_present.2 c7env ⟨[⟨"b", [("FLAG", "TRUE")], [], none⟩]⟩ 0
      [("flag", sBool)] 3 "p" "flag" sBool [("flag", CVal.bool true)]
      (by simp) (by simp) rfl rfl rfl rfl rfl (by rfl)

/-- Any list has positive size. -/
theorem list_sizeOf_pos {α : Type} [SizeOf α] (l : List α) : 1 ≤ sizeOf l := by
  cases l with
  | nil => simp
  | cons a t =>
    rw [List.cons.sizeOf_spec]
    omega

/-- A schema node has size at least two. -/
theorem schema_sizeOf_two (s : Schema) : 2 ≤ sizeOf s := by
  cases s with
  | mk fr =>
    obtain ⟨t, d, ty, mi, ma, pr, it, rq, en, co, df, fo, ap, de, re, oo, ao, al⟩ := fr
    simp
    omega

/-- The property list of a node is smaller than the node. -/
theorem sz_props_listD (s : Schema) : sizeOf (s.properties.getD []) < sizeOf s := by
  cases s with
  | mk fr =>
    obtain ⟨t, d, ty, mi, ma, pr, it, rq, en, co, df, fo, ap, de, re, oo, ao, al⟩ := fr
    cases pr with
    | none =>
      simp [Schema.properties, Schema.f]
      try omega
    | some l =>
      simp [Schema.properties, Schema.f]
      try omega

/-- The `oneOf` list of a node is smaller than the node. -/
theorem sz_oneOf_listD (s : Schema) : sizeOf (s.oneOf.getD []) < sizeOf s := by
  cases s with
  | mk fr =>
    obtain ⟨t, d, ty, mi, ma, pr, it, rq, en, co, df, fo, ap, de, re, oo, ao, al⟩ := fr
    cases oo with
    | none =>
      simp [Schema.oneOf, Schema.f]
      try omega
    | some l =>
      simp [Schema.oneOf, Schema.f]
      try omega

/-- The `anyOf` list of a node is smaller than the node. -/
theorem sz_anyOf_listD (s : Schema) : sizeOf (s.anyOf.getD []) < sizeOf s := by
  cases s with
  | mk fr =>
    obtain ⟨t, d, ty, mi, ma, pr, it, rq, en, co, df, fo, ap, de, re, oo, ao, al⟩ := fr
    cases ao with
    | none =>
      simp [Schema.anyOf, Schema.f]
      try omega
    | some l =>
      simp [Schema.anyOf, Schema.f]
      try omega

/-- The union-variant list `oneOf ?? anyOf ?? []` is smaller than the node. -/
theorem sz_unionD (s : Schema) : sizeOf ((s.oneOf <|> s.anyOf).getD []) < sizeOf s := by
  cases hoo : s.oneOf with
  | some l =>
    have h := sz_oneOf_listD s
    rw [hoo] at h
    exact h
  | none => exact sz_anyOf_listD s

/-- Membership in the union-variant list comes from `oneOf` or `anyOf`. -/
theorem mem_unionD {s : Schema} {x : Schema}
    (hx : x ∈ (s.oneOf <|> s.anyOf).getD []) :
    x ∈ s.oneOf.getD [] ∨ x ∈ s.anyOf.getD [] := by
  cases hoo : s.oneOf with
  | some l =>
    left
    rw [hoo] at hx
    exact hx
  | none =>
    right
    rw [hoo] at hx
    exact hx

/-- Every generator job has a positive primary measure. -/
theorem jm1_pos (job : BlockGenerator.GJob) : 1 ≤ BlockGenerator.jm1 job := by
  cases job with
  | objectBlock s a b c d e => exact le_trans (by omega) (schema_sizeOf_two s)
  | propsLoop a pending b c d e f g => exact list_sizeOf_pos pending
  | propertyInput s a b c d => exact le_trans (by omega) (schema_sizeOf_two s)
  | unionInput options a b c d e => exact list_sizeOf_pos options
  | unionLoop pending a b c d e f g => exact list_sizeOf_pos pending
  | arrayBlock s a b c d => exact le_trans (by omega) (schema_sizeOf_two s)
  | arrayVariantsLoop pending a b c d e f => exact list_sizeOf_pos pending

/-- Bind on `Except` out of an `ok`, in the form produced by `do`. -/
theorem bind_ok_eq {ε α β : Type} (a : α) (f : α → Except ε β) :
    Bind.bind (Except.ok a : Except ε α) f = f a := rfl

/-- The string leaf schema is canonical. -/
theorem canon_sStr : Canon sStr :=
  Canon.intro _ rfl rfl
    (by intro x hx; simp [sStr, Schema.oneOf, Schema.f] at hx)
    (by intro x hx; simp [sStr, Schema.anyOf, Schema.f] at hx)
    (by intro kv hkv; simp [sStr, Schema.properties, Schema.f] at hkv)
    (by intro x hx; simp [sStr, Schema.items, Schema.f] at hx)
    (by intro l x hl hm; simp [sStr, Schema.items, Schema.f] at hl)
    (by intro x hx; simp [sStr, Schema.additionalProperties, Schema.f] at hx)

/-- The boolean leaf schema is canonical. -/
theorem canon_sBool : Canon sBool :=
  Canon.intro _ rfl rfl
    (by intro x hx; simp [sBool, Schema.oneOf, Schema.f] at hx)
    (by intro x hx; simp [sBool, Schema.anyOf, Schema.f] at hx)
    (by intro kv hkv; simp [sBool, Schema.properties, Schema.f] at hkv)
    (by intro x hx; simp [sBool, Schema.items, Schema.f] at hx)
    (by intro l x hl hm; simp [sBool, Schema.items, Schema.f] at hl)
    (by intro x hx; simp [sBool, Schema.additionalProperties, Schema.f] at hx)

/-- The depth-policy example schema is canonical. -/
theorem canon_c5schema : Canon c5schema :=
  Canon.intro _ rfl rfl
    (by intro x hx; simp [c5schema, Schema.oneOf, Schema.f] at hx)
    (by intro x hx; simp [c5schema, Schema.anyOf, Schema.f] at hx)
    (by
      intro kv hkv
      simp [c5schema, Schema.properties, Schema.f] at hkv
      rcases hkv with h | h
      · rw [h]
        exact canon_sStr
      · rw [h]
        exact canon_sBool)
    (by intro x hx; simp [c5schema, Schema.items, Schema.f] at hx)
    (by intro l x hl hm; simp [c5schema, Schema.items, Schema.f] at hl)
    (by intro x hx; simp [c5schema, Schema.additionalProperties, Schema.f] at hx)

/-- Generation never runs out of gas on canonical schemas: any generator job
whose schemas are canonical and fit in the resolver fuel succeeds once the
gas is at least the job measure, at every depth. -/
theorem genRun_total (cfg : GeneratorConfig) (root : Schema) (rfuel : Nat) :
    ∀ (N : Nat) (job : BlockGenerator.GJob) (st : BlockGenerator.GState) (g : Nat),
      3 * BlockGenerator.jm1 job + BlockGenerator.jm2 job ≤ N →
      GJobOK rfuel job → N ≤ g →
      ∃ res, BlockGenerator.genRun cfg root rfuel g job st = .ok res := by
  intro N
  induction N with
  | zero =>
    intro job st g hm hok hg
    exact absurd hm (by have h1 := jm1_pos job; omega)
  | succ n ih =>
    intro job st g hm hok hg
    obtain ⟨gp, rfl⟩ : ∃ gp, g = gp + 1 := ⟨g - 1, by omega⟩
    rw [genRun_succ]
    cases job with
    | objectBlock s blockName isRoot depth dn cat =>
      obtain ⟨hc, hsz⟩ : Canon s ∧ sizeOf s ≤ rfuel := hok
      have hm' : 3 * sizeOf s ≤ n + 1 := by
        have e1 : BlockGenerator.jm1 (.objectBlock s blockName isRoot depth dn cat)
          = sizeOf s := rfl
        have e2 : BlockGenerator.jm2 (.objectBlock s blockName isRoot depth dn cat) = 0 := rfl
        omega
      by_cases hd : depth > cfg.maxDepth
      · apply Exists.intro
        simp only [BlockGenerator.genStep]
        rw [if_pos hd]
      · by_cases hmemo : (st.generatedBlocks.lookup blockName).isSome = true
        · apply Exists.intro
          simp only [BlockGenerator.genStep]
          rw [if_neg hd, if_pos hmemo]
        · have hres : SchemaResolver.resolve root rfuel s [] = .ok s :=
            resolve_canon_id rfuel root s [] hc hsz
          obtain ⟨res1, h1⟩ := ih
            (.propsLoop blockName (s.properties.getD []) (s.required.getD []) isRoot depth cat
              { type := blockName
                message0 := (dn <|> s.title).getD (humanize blockName)
                args0 := []
                colour := if isRoot then schemeColor cfg "root" else schemeColor cfg "object"
                tooltip := (s.description).getD
                  ("Configure " ++ (dn <|> s.title).getD (humanize blockName))
                previousStatement := if isRoot then none else some blockName
                nextStatement := if isRoot then none else some blockName } 0)
            { st with blockCategories := mapSet st.blockCategories blockName (if isRoot then "Configuration" else cat.getD (if depth = 1 then (dn <|> s.title).getD (humanize blockName) else "Objects")) }
            gp
            (by
              simp only [BlockGenerator.jm1, BlockGenerator.jm2]
              have := sz_props_listD s
              omega)
            (fun kv hkv => ⟨(by
                cases hc with
                | intro s2 href hallOf honeOf hanyOf hprops hi1 hi2 hap => exact hprops kv hkv),
              le_trans (le_of_lt (sz_props_mem hkv)) hsz⟩)
            (by omega)
          obtain ⟨out1, st2⟩ := res1
          apply Exists.intro
          simp only [BlockGenerator.genStep]
          rw [if_neg hd, if_neg hmemo]
          simp only [hres, bind_ok_eq, ok_bind, h1]
          rfl
    | propsLoop blockName pending required isRoot depth cat blk argIndex =>
      cases pending with
      | nil => exact ⟨_, rfl⟩
      | cons head rest =>
        obtain ⟨p, ps⟩ := head
        have hok' : ∀ kv ∈ (p, ps) :: rest, Canon kv.2 ∧ sizeOf kv.2 ≤ rfuel := hok
        have hhead := hok' (p, ps) (List.mem_cons_self _ _)
        have hrest : ∀ kv ∈ rest, Canon kv.2 ∧ sizeOf kv.2 ≤ rfuel :=
          fun kv hkv => hok' kv (List.mem_cons_of_mem _ hkv)
        have hm' : 3 * sizeOf ((p, ps) :: rest) ≤ n + 1 := by
          have e1 : BlockGenerator.jm1
              (.propsLoop blockName ((p, ps) :: rest) required isRoot depth cat blk argIndex)
            = sizeOf ((p, ps) :: rest) := rfl
          have e2 : BlockGenerator.jm2
              (.propsLoop blockName ((p, ps) :: rest) required isRoot depth cat blk argIndex)
            = 0 := rfl
          omega
        have hsp1 : sizeOf ((p, ps) :: rest) = 1 + sizeOf (p, ps) + sizeOf rest := rfl
        have hsp2 : sizeOf (p, ps) = 1 + sizeOf p + sizeOf ps := rfl
        have hrp := list_sizeOf_pos rest
        obtain ⟨res1, h1⟩ := ih
          (.propertyInput ps p (blockName ++ "_" ++ p) depth
            (if isRoot then some ((ps.title).getD (humanize p))
             else some (cat.getD ((ps.title).getD (humanize p)))))
          st gp
          (by
            simp only [BlockGenerator.jm1, BlockGenerator.jm2]
            omega)
          hhead
          (by omega)
        obtain ⟨out1, st1⟩ := res1
        cases harg : out1.getArg with
        | some input =>
          simp only [BlockGenerator.genStep]
          simp only [h1, bind_ok_eq, ok_bind, harg]
          refine ih _ st1 gp ?_ ?_ (by omega)
          · simp only [BlockGenerator.jm1, BlockGenerator.jm2]
            omega
          · exact hrest
        | none =>
          simp only [BlockGenerator.genStep]
          simp only [h1, bind_ok_eq, ok_bind, harg]
          refine ih _ st1 gp ?_ ?_ (by omega)
          · simp only [BlockGenerator.jm1, BlockGenerator.jm2]
            omega
          · exact hrest
    | propertyInput s p fullPath depth cat =>
      obtain ⟨hc, hsz⟩ : Canon s ∧ sizeOf s ≤ rfuel := hok
      have hm' : 3 * sizeOf s + 2 ≤ n + 1 := by
        have e1 : BlockGenerator.jm1 (.propertyInput s p fullPath depth cat) = sizeOf s := rfl
        have e2 : BlockGenerator.jm2 (.propertyInput s p fullPath depth cat) = 2 := rfl
        omega
      have hres : SchemaResolver.resolve root rfuel s [] = .ok s :=
        resolve_canon_id rfuel root s [] hc hsz
      have hcF := hc
      cases hcF with
      | intro s2 href hallOf honeOf hanyOf hprops hi1 hi2 hap =>
      simp only [BlockGenerator.genStep]
      simp only [hres, bind_ok_eq, ok_bind]
      by_cases h1of : truthyLen s.oneOf = true
      · rw [if_pos h1of]
        refine ih _ st gp ?_ ?_ (by omega)
        · simp only [BlockGenerator.jm1, BlockGenerator.jm2]
          have := sz_oneOf_listD s
          omega
        · intro x hx
          exact ⟨honeOf x hx, le_trans (le_of_lt (sz_oneOf_mem hx)) hsz⟩
      · rw [if_neg h1of]
        by_cases h2of : truthyLen s.anyOf = true
        · rw [if_pos h2of]
          refine ih _ st gp ?_ ?_ (by omega)
          · simp only [BlockGenerator.jm1, BlockGenerator.jm2]
            have := sz_anyOf_listD s
            omega
          · intro x hx
            exact ⟨hanyOf x hx, le_trans (le_of_lt (sz_anyOf_mem hx)) hsz⟩
        · rw [if_neg h2of]
          by_cases hen : s.enum.isSome = true
          · rw [if_pos hen]
            exact ⟨_, rfl⟩
          · rw [if_neg hen]
            by_cases hty1 : s.type = some (.one "string")
            · rw [if_pos hty1]
              by_cases hfd : (s.format == some "date") = true
              · rw [if_pos hfd]
                exact ⟨_, rfl⟩
              · rw [if_neg hfd]
                exact ⟨_, rfl⟩
            · rw [if_neg hty1]
              by_cases hty2 : s.type = some (.one "number")
              · rw [if_pos hty2]
                exact ⟨_, rfl⟩
              · rw [if_neg hty2]
                by_cases hty3 : s.type = some (.one "integer")
                · rw [if_pos hty3]
                  exact ⟨_, rfl⟩
                · rw [if_neg hty3]
                  by_cases hty4 : s.type = some (.one "boolean")
                  · rw [if_pos hty4]
                    exact ⟨_, rfl⟩
                  · rw [if_neg hty4]
                    by_cases hty5 : s.type = some (.one "array")
                    · rw [if_pos hty5]
                      obtain ⟨res1, h1⟩ := ih
                        (.arrayBlock s fullPath depth cat (some ((s.title).getD (humanize p))))
                        st gp
                        (by
                          simp only [BlockGenerator.jm1, BlockGenerator.jm2]
                          omega)
                        ⟨hc, hsz⟩
                        (by omega)
                      obtain ⟨out1, st1⟩ := res1
                      apply Exists.intro
                      simp only [h1, bind_ok_eq, ok_bind]
                      rfl
                    · rw [if_neg hty5]
                      by_cases hty6 : s.type = some (.one "object")
                      · rw [if_pos hty6]
                        obtain ⟨res1, h1⟩ := ih
                          (.objectBlock s fullPath false (depth + 1)
                            (some ((s.title).getD (humanize p))) cat)
                          st gp
                          (by
                            simp only [BlockGenerator.jm1, BlockGenerator.jm2]
                            omega)
                          ⟨hc, hsz⟩
                          (by omega)
                        obtain ⟨out1, st1⟩ := res1
                        apply Exists.intro
                        simp only [h1, bind_ok_eq, ok_bind]
                        rfl
                      · rw [if_neg hty6]
                        exact ⟨_, rfl⟩
    | unionInput options p fullPath depth cat displayName =>
      have hm' : 3 * sizeOf options + 1 ≤ n + 1 := by
        have e1 : BlockGenerator.jm1 (.unionInput options p fullPath depth cat displayName)
          = sizeOf options := rfl
        have e2 : BlockGenerator.jm2 (.unionInput options p fullPath depth cat displayName)
          = 1 := rfl
        omega
      obtain ⟨res1, h1⟩ := ih (.unionLoop options 0 p fullPath depth cat displayName []) st gp
        (by
          simp only [BlockGenerator.jm1, BlockGenerator.jm2]
          omega)
        hok (by omega)
      obtain ⟨out1, st1⟩ := res1
      simp only [BlockGenerator.genStep]
      simp only [h1, bind_ok_eq, ok_bind]
      by_cases hni : (BlockGenerator.GOut.getNames out1).isEmpty = true
      · apply Exists.intro
        rw [if_pos hni]
      · apply Exists.intro
        rw [if_neg hni]
    | unionLoop pending idx p fullPath depth cat displayName acc =>
      cases pending with
      | nil => exact ⟨_, rfl⟩
      | cons option rest =>
        have hok' : ∀ x ∈ option :: rest, Canon x ∧ sizeOf x ≤ rfuel := hok
        have hhead := hok' option (List.mem_cons_self _ _)
        have hrest : ∀ x ∈ rest, Canon x ∧ sizeOf x ≤ rfuel :=
          fun x hx => hok' x (List.mem_cons_of_mem _ hx)
        have hm' : 3 * sizeOf (option :: rest) ≤ n + 1 := by
          have e1 : BlockGenerator.jm1
              (.unionLoop (option :: rest) idx p fullPath depth cat displayName acc)
            = sizeOf (option :: rest) := rfl
          have e2 : BlockGenerator.jm2
              (.unionLoop (option :: rest) idx p fullPath depth cat displayName acc) = 0 := rfl
          omega
        have hs1 : sizeOf (option :: rest) = 1 + sizeOf option + sizeOf rest := rfl
        have hrp := list_sizeOf_pos rest
        have hso := schema_sizeOf_two option
        have hres1 : SchemaResolver.resolve root rfuel option [] = .ok option :=
          resolve_canon_id rfuel root option [] hhead.1 hhead.2
        obtain ⟨res1, h1⟩ := ih
          (.objectBlock option
            (fullPath ++ "_" ++  slugify
              (if (option.title).getD (displayName ++ " Option " ++ natRepr (idx + 1)) = ""
               then p ++ "_" ++ natRepr (idx + 1)
               else (option.title).getD (displayName ++ " Option " ++ natRepr (idx + 1))))
            false (depth + 1)
            (some ((option.title).getD (displayName ++ " Option " ++ natRepr (idx + 1))))
            cat)
          st gp
          (by
            simp only [BlockGenerator.jm1, BlockGenerator.jm2]
            omega)
          hhead (by omega)
        obtain ⟨out1, st1⟩ := res1
        simp only [BlockGenerator.genStep]
        simp only [hres1, bind_ok_eq, ok_bind, h1]
        refine ih _ _ gp ?_ ?_ (by omega)
        · simp only [BlockGenerator.jm1, BlockGenerator.jm2]
          omega
        · exact hrest
    | arrayBlock s blockName depth cat displayName =>
      obtain ⟨hc, hsz⟩ : Canon s ∧ sizeOf s ≤ rfuel := hok
      have hm' : 3 * sizeOf s + 1 ≤ n + 1 := by
        have e1 : BlockGenerator.jm1 (.arrayBlock s blockName depth cat displayName)
          = sizeOf s := rfl
        have e2 : BlockGenerator.jm2 (.arrayBlock s blockName depth cat displayName)
          = 1 := rfl
        omega
      have hres : SchemaResolver.resolve root rfuel s [] = .ok s :=
        resolve_canon_id rfuel root s [] hc hsz
      have hcF := hc
      cases hcF with
      | intro s2 href hallOf honeOf hanyOf hprops hi1 hi2 hap =>
      cases hit : s.items with
      | none =>
        apply Exists.intro
        simp only [BlockGenerator.genStep]
        simp only [hres, bind_ok_eq, ok_bind, jsItemsHead, hit]
        rfl
      | some sv =>
        cases sv with
        | inr l =>
          cases l with
          | nil =>
            apply Exists.intro
            simp only [BlockGenerator.genStep]
            simp only [hres, bind_ok_eq, ok_bind, jsItemsHead, hit]
            rfl
          | cons it irest =>
            have hcit : Canon it := hi2 (it :: irest) it hit (List.mem_cons_self _ _)
            have hszit : sizeOf it < sizeOf s := sz_items_inr_mem hit (List.mem_cons_self _ _)
            by_cases hvar : (truthyLen it.oneOf || truthyLen it.anyOf) = true
            · obtain ⟨res1, h1⟩ := ih
                (.arrayVariantsLoop ((it.oneOf <|> it.anyOf).getD []) 0 blockName depth
                  (if depth > 0 then cat else none) displayName [])
                st gp
                (by
                  simp only [BlockGenerator.jm1, BlockGenerator.jm2]
                  have := sz_unionD it
                  omega)
                (by
                  intro x hx
                  have hcit2 := hcit
                  cases hcit2 with
                  | intro it2 hrefI hallI honeI hanyI hpropsI hi1I hi2I hapI =>
                  rcases mem_unionD hx with h | h
                  · exact ⟨honeI x h,
                      le_trans (le_of_lt (lt_trans (sz_oneOf_mem h) hszit)) hsz⟩
                  · exact ⟨hanyI x h,
                      le_trans (le_of_lt (lt_trans (sz_anyOf_mem h) hszit)) hsz⟩)
                (by omega)
              obtain ⟨out1, st1⟩ := res1
              apply Exists.intro
              simp only [BlockGenerator.genStep]
              simp only [hres, bind_ok_eq, ok_bind, jsItemsHead, hit, Option.getD_some]
              rw [if_pos hvar]
              simp only [h1, bind_ok_eq, ok_bind]
              rfl
            · by_cases hobj : (it.type == some (.one "object")) = true
              · have hresIt : SchemaResolver.resolve root rfuel it [] = .ok it :=
                  resolve_canon_id rfuel root it [] hcit (le_of_lt (lt_of_lt_of_le hszit hsz))
                obtain ⟨res1, h1⟩ := ih
                  (.objectBlock it (blockName ++ "_item") false (depth + 1)
                    (some ((it.title <|> displayName).getD (humanize (blockName ++ "_item"))))
                    (if depth > 0 then cat else none))
                  st gp
                  (by
                    simp only [BlockGenerator.jm1, BlockGenerator.jm2]
                    omega)
                  ⟨hcit, le_of_lt (lt_of_lt_of_le hszit hsz)⟩
                  (by omega)
                obtain ⟨out1, st1⟩ := res1
                apply Exists.intro
                simp only [BlockGenerator.genStep]
                simp only [hres, bind_ok_eq, ok_bind, jsItemsHead, hit, Option.getD_some]
                rw [if_neg hvar, if_pos hobj]
                simp only [hresIt, bind_ok_eq, ok_bind, h1]
                rfl
              · apply Exists.intro
                simp only [BlockGenerator.genStep]
                simp only [hres, bind_ok_eq, ok_bind, jsItemsHead, hit, Option.getD_some]
                rw [if_neg hvar, if_neg hobj]
        | inl it =>
          have hcit : Canon it := hi1 it hit
          have hszit : sizeOf it < sizeOf s := sz_items_inl hit
          by_cases hvar : (truthyLen it.oneOf || truthyLen it.anyOf) = true
          · obtain ⟨res1, h1⟩ := ih
              (.arrayVariantsLoop ((it.oneOf <|> it.anyOf).getD []) 0 blockName depth
                (if depth > 0 then cat else none) displayName [])
              st gp
              (by
                simp only [BlockGenerator.jm1, BlockGenerator.jm2]
                have := sz_unionD it
                omega)
              (by
                intro x hx
                have hcit2 := hcit
                cases hcit2 with
                | intro it2 hrefI hallI honeI hanyI hpropsI hi1I hi2I hapI =>
                rcases mem_unionD hx with h | h
                · exact ⟨honeI x h,
                    le_trans (le_of_lt (lt_trans (sz_oneOf_mem h) hszit)) hsz⟩
                · exact ⟨hanyI x h,
                    le_trans (le_of_lt (lt_trans (sz_anyOf_mem h) hszit)) hsz⟩)
              (by omega)
            obtain ⟨out1, st1⟩ := res1
            apply Exists.intro
            simp only [BlockGenerator.genStep]
            simp only [hres, bind_ok_eq, ok_bind, jsItemsHead, hit, Option.getD_some]
            rw [if_pos hvar]
            simp only [h1, bind_ok_eq, ok_bind]
            rfl
          · by_cases hobj : (it.type == some (.one "object")) = true
            · have hresIt : SchemaResolver.resolve root rfuel it [] = .ok it :=
                resolve_canon_id rfuel root it [] hcit (le_of_lt (lt_of_lt_of_le hszit hsz))
              obtain ⟨res1, h1⟩ := ih
                (.objectBlock it (blockName ++ "_item") false (depth + 1)
                  (some ((it.title <|> displayName).getD (humanize (blockName ++ "_item"))))
                  (if depth > 0 then cat else none))
                st gp
                (by
                  simp only [BlockGenerator.jm1, BlockGenerator.jm2]
                  omega)
                ⟨hcit, le_of_lt (lt_of_lt_of_le hszit hsz)⟩
                (by omega)
              obtain ⟨out1, st1⟩ := res1
              apply Exists.intro
              simp only [BlockGenerator.genStep]
              simp only [hres, bind_ok_eq, ok_bind, jsItemsHead, hit, Option.getD_some]
              rw [if_neg hvar, if_pos hobj]
              simp only [hresIt, bind_ok_eq, ok_bind, h1]
              rfl
            · apply Exists.intro
              simp only [BlockGenerator.genStep]
              simp only [hres, bind_ok_eq, ok_bind, jsItemsHead, hit, Option.getD_some]
              rw [if_neg hvar, if_neg hobj]
    | arrayVariantsLoop pending idx blockName depth category displayName acc =>
      cases pending with
      | nil => exact ⟨_, rfl⟩
      | cons variant rest =>
        have hok' : ∀ x ∈ variant :: rest, Canon x ∧ sizeOf x ≤ rfuel := hok
        have hhead := hok' variant (List.mem_cons_self _ _)
        have hrest : ∀ x ∈ rest, Canon x ∧ sizeOf x ≤ rfuel :=
          fun x hx => hok' x (List.mem_cons_of_mem _ hx)
        have hm' : 3 * sizeOf (variant :: rest) ≤ n + 1 := by
          have e1 : BlockGenerator.jm1
              (.arrayVariantsLoop (variant :: rest) idx blockName depth category displayName acc)
            = sizeOf (variant :: rest) := rfl
          have e2 : BlockGenerator.jm2
              (.arrayVariantsLoop (variant :: rest) idx blockName depth category displayName acc)
            = 0 := rfl
          omega
        have hs1 : sizeOf (variant :: rest) = 1 + sizeOf variant + sizeOf rest := rfl
        have hrp := list_sizeOf_pos rest
        have hso := schema_sizeOf_two variant
        have hres1 : SchemaResolver.resolve root rfuel variant [] = .ok variant :=
          resolve_canon_id rfuel root variant [] hhead.1 hhead.2
        obtain ⟨res1, h1⟩ := ih
          (.objectBlock variant
            (blockName ++ "_" ++  slugify
              ((variant.title <|> displayName).getD
                (humanize blockName ++ " Option " ++ natRepr (idx + 1))))
            false (depth + 1)
            (some ((variant.title <|> displayName).getD
              (humanize blockName ++ " Option " ++ natRepr (idx + 1))))
            category)
          st gp
          (by
            simp only [BlockGenerator.jm1, BlockGenerator.jm2]
            omega)
          hhead (by omega)
        obtain ⟨out1, st1⟩ := res1
        simp only [BlockGenerator.genStep]
        simp only [hres1, bind_ok_eq, ok_bind, h1]
        refine ih _ _ gp ?_ ?_ (by omega)
        · simp only [BlockGenerator.jm1, BlockGenerator.jm2]
          omega
        · exact hrest

/-- C5: the generator depth policy. The default configuration bounds object
nesting at `maxDepth = 10`; a `generateObjectBlock` call past the bound
truncates that branch immediately, logging the max-depth diagnostic and
returning the block name as a normal (non-error) result; and on canonical
(resolvable) schemas a generation job never fails at any depth given gas at
least its measure, so exceeding the depth bound never aborts generation. -/
theorem depth_bound_policy :
    (({} : GeneratorConfig).maxDepth = 10)
    ∧ (∀ (cfg : GeneratorConfig) (root : Schema) (rfuel g : Nat) (s : Schema)
        (blockName : String) (isRoot : Bool) (depth : Nat) (dn cat : Option String)
        (st : BlockGenerator.GState), depth > cfg.maxDepth →
        BlockGenerator.genRun cfg root rfuel (g + 1)
            (.objectBlock s blockName isRoot depth dn cat) st
          = .ok (.name blockName,
              { st with diagnostics :=
                  st.diagnostics ++ ["Max depth exceeded for block: " ++ blockName] }))
    ∧ (∀ (cfg : GeneratorConfig) (root : Schema) (rfuel g : Nat) (s : Schema)
        (blockName : String) (isRoot : Bool) (depth : Nat) (dn cat : Option String)
        (st : BlockGenerator.GState), Canon s → sizeOf s ≤ rfuel → 3 * sizeOf s ≤ g →
        ∃ res, BlockGenerator.genRun cfg root rfuel g
          (.objectBlock s blockName isRoot depth dn cat) st = .ok res) := by
  refine ⟨rfl, ?_, ?_⟩
  · intro cfg root rfuel g s blockName isRoot depth dn cat st hd
    rw [genRun_succ]
    simp only [BlockGenerator.genStep]
    rw [if_pos hd]
  · intro cfg root rfuel g s blockName isRoot depth dn cat st hc hsz hg
    exact genRun_total cfg root rfuel g (.objectBlock s blockName isRoot depth dn cat) st g
      (by
        have e1 : BlockGenerator.jm1 (.objectBlock s blockName isRoot depth dn cat)
          = sizeOf s := rfl
        have e2 : BlockGenerator.jm2 (.objectBlock s blockName isRoot depth dn cat) = 0 := rfl
        omega)
      ⟨hc, hsz⟩ (le_refl g)

/-- C5 witness: past the default bound a call at depth eleven returns the
block name plus the truncation diagnostic, and on the concrete canonical
schema generation succeeds even at depth twelve. -/
theorem depth_bound_policy_witness :
    BlockGenerator.genRun {} sStr 0 5 (.objectBlock sStr "cfg" true 11 none none) {}
      = .ok (.name "cfg", { diagnostics := ["Max depth exceeded for block: cfg"] })
    ∧ ∃ res, BlockGenerator.genRun {} Schema.emptyS 100000 100000
        (.objectBlock c5schema "config_root" true 12 none none) {} = .ok res := by
  constructor
  · exact depth_bound_policy.2.1 {} sStr 0 4 sStr "cfg" true 11 none none {} (by decide)
  · exact depth_bound_policy.2.2 {} Schema.emptyS 100000 100000 c5schema "config_root" true 12
      none none {} canon_c5schema (by decide) (by decide)

/-- C1 counterexample: the empty configuration conforms to the
one-optional-boolean schema, yet the round trip materialises the boolean:
loading `{}` and extracting under the omit policy returns `{b: false}`, so
`extract(load(value))` is not deep-equal to the value modulo the configured
missing-field policy. -/
theorem round_trip_counterexample :
    ConfigLoader.load c1env 10 []
      = some ⟨[⟨"cfg_root", [("B", "FALSE")], [], none⟩]⟩
    ∧ ConfigGenerator.generate c1env 10 ⟨[⟨"cfg_root", [("B", "FALSE")], [], none⟩]⟩ "cfg_root"
      = .ok (.obj [("b", .bool false)], [])
    ∧ (List.lookup "b" ([] : List (String × CVal))) = none
    ∧ (List.lookup "b" [("b", CVal.bool false)]).isSome = true :=
  ⟨rfl, rfl, rfl, rfl⟩

/-- Option bind out of `some` in the form produced by `do`. -/
theorem obind_some {α β : Type} (a : α) (f : α → Option β) :
    Bind.bind (some a) f = f a := rfl

/-- `listModify` keeps the length. -/
theorem listModify_length {α : Type} : ∀ (l : List α) (i : Nat) (f : α → α),
    (listModify l i f).length = l.length
  | [], _, _ => rfl
  | _ :: _, 0, _ => rfl
  | _ :: xs, n+1, f => congrArg Nat.succ (listModify_length xs n f)

/-- `listModify` leaves other indices unchanged. -/
theorem listModify_get_ne {α : Type} : ∀ (l : List α) (i j : Nat) (f : α → α), j ≠ i →
    (listModify l i f).get? j = l.get? j
  | [], _, _, _, _ => rfl
  | _ :: _, 0, 0, _, h => absurd rfl h
  | _ :: _, 0, _+1, _, _ => rfl
  | _ :: _, _+1, 0, _, _ => rfl
  | _ :: xs, i+1, j+1, f, h =>
    listModify_get_ne xs i j f (fun e => h (congrArg Nat.succ e))


/-- `listModify` maps the touched index. -/
theorem listModify_get_eq {α : Type} : ∀ (l : List α) (i : Nat) (f : α → α),
    (listModify l i f).get? i = (l.get? i).map f
  | [], _, _ => rfl
  | _ :: _, 0, _ => rfl
  | _ :: xs, i+1, f => listModify_get_eq xs i f

/-- `assocSet` leaves other keys unchanged. -/
theorem assocSet_lookup_ne {β : Type} (k k' : String) (v : β) (h : k' ≠ k) :
    ∀ (l : List (String × β)), (assocSet l k v).lookup k' = l.lookup k'
  | [] => rfl
  | (a, b) :: l => by
    by_cases ha : a = k
    · simp only [assocSet, if_pos ha, List.lookup]
      rw [show (k' == k) = false from beq_eq_false_iff_ne.mpr h,
        show (k' == a) = false from beq_eq_false_iff_ne.mpr (ha ▸ h)]
    · simp only [assocSet, if_neg ha, List.lookup]
      cases hk : k' == a with
      | true => rfl
      | false => exact assocSet_lookup_ne k k' v h l

/-- `assocSet` updates a present key. -/
theorem assocSet_lookup_self {β : Type} (k : String) (v : β) :
    ∀ (l : List (String × β)), (l.lookup k).isSome = true →
      (assocSet l k v).lookup k = some v
  | [], h => by simp [List.lookup] at h
  | (a, b) :: l, h => by
    by_cases ha : a = k
    · simp only [assocSet, if_pos ha, List.lookup]
      rw [show (k == k) = true from beq_self_eq_true k]
    · simp only [assocSet, if_neg ha, List.lookup]
      have hka : (k == a) = false := beq_eq_false_iff_ne.mpr (fun e => ha e.symm)
      rw [hka]
      apply assocSet_lookup_self k v l
      simp only [List.lookup, hka] at h
      exact h

/-- `assocSet` never changes which keys are present. -/
theorem assocSet_lookup_isSome {β : Type} (k k' : String) (v : β) :
    ∀ (l : List (String × β)), ((assocSet l k v).lookup k').isSome = (l.lookup k').isSome
  | [] => rfl
  | (a, b) :: l => by
    by_cases ha : a = k
    · subst ha
      simp only [assocSet, if_pos rfl, List.lookup]
      cases hk : k' == a with
      | true => rfl
      | false => rfl
    · simp only [assocSet, if_neg ha, List.lookup]
      cases hk : k' == a with
      | true => rfl
      | false => exact assocSet_lookup_isSome k k' v l

/-- Reading back a field just set (the field must exist on the block). -/
theorem getField_setField_same (ws : WS) (i : Nat) (n v : String)
    (h : (ws.getField i n).isSome = true) :
    (ws.setField i n v).getField i n = some v := by
  have h2 : ((ws.blocks.get? i).bind (fun b => b.fields.lookup n)).isSome = true := h
  have hg : (ws.setField i n v).getField i n
      = ((listModify ws.blocks i
          (fun b => { b with fields := assocSet b.fields n v })).get? i).bind
          (fun b => b.fields.lookup n) := rfl
  rw [hg, listModify_get_eq]
  cases hb : ws.blocks.get? i with
  | none => rw [hb] at h2; simp at h2
  | some b =>
    rw [hb] at h2
    exact assocSet_lookup_self n v b.fields h2

/-- Setting one field leaves every other block/field pair unchanged. -/
theorem getField_setField_other (ws : WS) (i : Nat) (n v : String) (j : Nat) (m : String)
    (h : j ≠ i ∨ m ≠ n) :
    (ws.setField i n v).getField j m = ws.getField j m := by
  have hg : (ws.setField i n v).getField j m
      = ((listModify ws.blocks i
          (fun b => { b with fields := assocSet b.fields n v })).get? j).bind
          (fun b => b.fields.lookup m) := rfl
  have hg2 : ws.getField j m = (ws.blocks.get? j).bind (fun b => b.fields.lookup m) := rfl
  rw [hg, hg2]
  by_cases hj : j = i
  · subst hj
    rw [listModify_get_eq]
    cases hb : ws.blocks.get? j with
    | none => rfl
    | some b =>
      have h2 : m ≠ n := by
        rcases h with h | h
        · exact absurd rfl h
        · exact h
      exact assocSet_lookup_ne n m v h2 b.fields
  · rw [listModify_get_ne _ _ _ _ hj]

/-- Setting a field never changes which fields are present anywhere. -/
theorem getField_setField_isSome (ws : WS) (i : Nat) (n v : String) (j : Nat) (m : String) :
    ((ws.setField i n v).getField j m).isSome = (ws.getField j m).isSome := by
  have hg : ((ws.setField i n v).getField j m).isSome
      = (((listModify ws.blocks i
          (fun b => { b with fields := assocSet b.fields n v })).get? j).bind
          (fun b => b.fields.lookup m)).isSome := rfl
  have hg2 : (ws.getField j m).isSome
      = ((ws.blocks.get? j).bind (fun b => b.fields.lookup m)).isSome := rfl
  rw [hg, hg2]
  by_cases hj : j = i
  · subst hj
    rw [listModify_get_eq]
    cases hb : ws.blocks.get? j with
    | none => rfl
    | some b => exact assocSet_lookup_isSome n m v b.fields
  · rw [listModify_get_ne _ _ _ _ hj]

/-- Setting a field keeps the block count. -/
theorem setField_length (ws : WS) (i : Nat) (n v : String) :
    (ws.setField i n v).blocks.length = ws.blocks.length := listModify_length _ _ _

/-- Setting a field keeps every block type. -/
theorem setField_btypeOf (ws : WS) (i : Nat) (n v : String) (j : Nat) :
    (ws.setField i n v).btypeOf j = ws.btypeOf j := by
  have hg : (ws.setField i n v).btypeOf j
      = (((listModify ws.blocks i
          (fun b => { b with fields := assocSet b.fields n v })).get? j).map Blk.btype).getD "" := rfl
  have hg2 : ws.btypeOf j = ((ws.blocks.get? j).map Blk.btype).getD "" := rfl
  rw [hg, hg2]
  by_cases hj : j = i
  · subst hj
    rw [listModify_get_eq]
    cases hb : ws.blocks.get? j with
    | none => rfl
    | some b => rfl
  · rw [listModify_get_ne _ _ _ _ hj]

/-- Inversion of representability: the property is union-free and enum-free,
and the value fits one of the four primitive kinds. -/
theorem repVal_cases {psch : Schema} {v : CVal} (h : repVal psch v = true) :
    truthyLen psch.oneOf = false ∧ truthyLen psch.anyOf = false ∧ psch.enum.isSome = false
    ∧ ((∃ s, psch.type = some (.one "string") ∧ v = .str s ∧ (s != "") = true)
       ∨ (∃ n, (psch.type = some (.one "number") ∨ psch.type = some (.one "integer"))
           ∧ v = .num n)
       ∨ (∃ b, psch.type = some (.one "boolean") ∧ v = .bool b)) := by
  unfold repVal at h
  by_cases h12 : (truthyLen psch.oneOf || truthyLen psch.anyOf) = true
  · rw [if_pos h12] at h
    exact absurd h (by simp)
  · rw [if_neg h12] at h
    simp only [Bool.or_eq_true, not_or] at h12
    obtain ⟨h1, h2⟩ := h12
    by_cases hen : psch.enum.isSome = true
    · rw [if_pos hen] at h
      exact absurd h (by simp)
    · rw [if_neg hen] at h
      refine ⟨Bool.eq_false_iff.mpr h1, Bool.eq_false_iff.mpr h2, Bool.eq_false_iff.mpr hen, ?_⟩
      split at h
      · rename_i s hty
        exact Or.inl ⟨s, hty, rfl, h⟩
      · rename_i n hty
        exact Or.inr (Or.inl ⟨n, Or.inl hty, rfl⟩)
      · rename_i n hty
        exact Or.inr (Or.inl ⟨n, Or.inr hty, rfl⟩)
      · rename_i b hty
        exact Or.inr (Or.inr ⟨b, hty, rfl⟩)
      · exact absurd h (by simp)

/-- The primitive branch of `setFieldValue`: on a representable value the
loader writes exactly the primitive field string. -/
theorem loadRun_setField_primitive (env : Env) (f : Nat) (ws : WS) (id : Nat)
    (fn : String) (v : CVal) (psch : Schema) (path : String)
    (h : repVal psch v = true) :
    ConfigLoader.loadRun env (f + 1) ws (.setFieldValue id fn v psch path)
      = some (ws.setField id fn (loadFieldStr psch v)) := by
  obtain ⟨h1, h2, hen, hrest⟩ := repVal_cases h
  rw [loadRun_succ]
  rcases hrest with ⟨s, hty, hv, hs⟩ | ⟨n, hty, hv⟩ | ⟨b, hty, hv⟩
  · subst hv
    simp only [ConfigLoader.loadStep, loadFieldStr, h1, h2, hen, hty]
    rfl
  · subst hv
    rcases hty with hty | hty
    · simp only [ConfigLoader.loadStep, loadFieldStr, h1, h2, hen, hty]
      rfl
    · simp only [ConfigLoader.loadStep, loadFieldStr, h1, h2, hen, hty]
      rfl
  · subst hv
    simp only [ConfigLoader.loadStep, loadFieldStr, h1, h2, hen, hty]
    rfl

/-- String append concatenates the character lists. -/
theorem str_toList_append (a b : String) : (a ++ b).toList = a.toList ++ b.toList := by
  cases a
  cases b
  rfl

/-- A character's one-character string. -/
theorem char_toString_toList (c : Char) : (Char.toString c).toList = [c] := rfl

/-- The decimal digit characters: digits parse back and are never a minus
sign. -/
theorem digitChar_spec (d : Nat) (h : d < 10) :
    (Nat.digitChar d).isDigit = true ∧ (Nat.digitChar d).toNat - 48 = d
      ∧ Nat.digitChar d ≠ '-' := by
  interval_cases d <;> exact ⟨by decide, by decide, by decide⟩

/-- Parsing a digit string extended by one digit character. -/
theorem digitsNat_append_digit (c : Char) : ∀ (xs : List Char), xs ≠ [] →
    digitsNat (xs ++ [c]) = (digitsNat xs).bind
      (fun m => if c.isDigit then some (m * 10 + (c.toNat - 48)) else none)
  | [], h => absurd rfl h
  | x :: xs, _ => by
    show List.foldl (fun acc? c => acc?.bind
        (fun acc => if c.isDigit then some (acc * 10 + (c.toNat - 48)) else none))
      (some 0) ((x :: xs) ++ [c]) = _
    rw [List.foldl_append]
    rfl

/-- The decimal printer never returns an empty string. -/
theorem natReprGo_ne_nil : ∀ (fuel n : Nat), (natReprGo fuel n).toList ≠ []
  | 0, n => by
    rw [show natReprGo 0 n = (Nat.digitChar (n % 10)).toString from rfl, char_toString_toList]
    simp
  | fuel+1, n => by
    rw [show natReprGo (fuel+1) n = if n < 10 then (Nat.digitChar n).toString
        else natReprGo fuel (n / 10) ++ (Nat.digitChar (n % 10)).toString from rfl]
    by_cases hn : n < 10
    · rw [if_pos hn, char_toString_toList]
      simp
    · rw [if_neg hn, str_toList_append, char_toString_toList]
      simp

/-- The decimal printer emits no minus sign. -/
theorem natReprGo_no_minus : ∀ (fuel n : Nat), ∀ c ∈ (natReprGo fuel n).toList, c ≠ '-'
  | 0, n => by
    rw [show natReprGo 0 n = (Nat.digitChar (n % 10)).toString from rfl, char_toString_toList]
    intro c hc
    simp at hc
    subst hc
    obtain ⟨-, -, h⟩ := digitChar_spec (n % 10) (Nat.mod_lt _ (by omega))
    exact h
  | fuel+1, n => by
    rw [show natReprGo (fuel+1) n = if n < 10 then (Nat.digitChar n).toString
        else natReprGo fuel (n / 10) ++ (Nat.digitChar (n % 10)).toString from rfl]
    by_cases hn : n < 10
    · rw [if_pos hn, char_toString_toList]
      intro c hc
      simp at hc
      subst hc
      obtain ⟨-, -, h⟩ := digitChar_spec n hn
      exact h
    · rw [if_neg hn, str_toList_append, char_toString_toList]
      intro c hc
      rcases List.mem_append.mp hc with h | h
      · exact natReprGo_no_minus fuel (n / 10) c h
      · simp at h
        subst h
        obtain ⟨-, -, hh⟩ := digitChar_spec (n % 10) (Nat.mod_lt _ (by omega))
        exact hh

/-- Parsing inverts the decimal printer. -/
theorem digitsNat_natReprGo : ∀ (fuel : Nat), ∀ (n : Nat), n ≤ fuel →
    digitsNat (natReprGo fuel n).toList = some n := by
  intro fuel
  induction fuel with
  | zero =>
    intro n hn
    have h0 : n = 0 := by omega
    subst h0
    decide
  | succ fuel ih =>
    intro n hn
    rw [show natReprGo (fuel+1) n = if n < 10 then (Nat.digitChar n).toString
        else natReprGo fuel (n / 10) ++ (Nat.digitChar (n % 10)).toString from rfl]
    by_cases h10 : n < 10
    · rw [if_pos h10, char_toString_toList]
      obtain ⟨hd1, hd2, -⟩ := digitChar_spec n h10
      show (if (Nat.digitChar n).isDigit = true
          then some (0 * 10 + ((Nat.digitChar n).toNat - 48)) else none) = some n
      rw [if_pos hd1]
      exact congrArg some (by omega)
    · rw [if_neg h10, str_toList_append, char_toString_toList]
      rw [digitsNat_append_digit _ _ (natReprGo_ne_nil fuel (n / 10))]
      rw [ih (n / 10) (by omega)]
      obtain ⟨hd1, hd2, -⟩ := digitChar_spec (n % 10) (Nat.mod_lt _ (by omega))
      show (if (Nat.digitChar (n % 10)).isDigit = true
          then some (n / 10 * 10 + ((Nat.digitChar (n % 10)).toNat - 48)) else none) = some n
      rw [if_pos hd1]
      refine congrArg some ?_
      have hdm := Nat.div_add_mod n 10
      omega

/-- The decimal form of a natural number is nonempty. -/
theorem natRepr_ne_empty (n : Nat) : ¬ (natRepr n = "") :=
  fun e => natReprGo_ne_nil n n (congrArg String.toList e)

/-- `String(value)` on an integer is nonempty. -/
theorem intRepr_ne_empty (n : Int) : ¬ (intRepr n = "") := by
  cases n with
  | ofNat m => exact natRepr_ne_empty m
  | negSucc m =>
    intro e
    have h := congrArg String.toList e
    rw [show intRepr (Int.negSucc m) = "-" ++ natRepr (m + 1) from rfl,
      str_toList_append] at h
    simp at h

/-- JS `Number(String(n))` round-trips every integer of the model. -/
theorem jsNumber_intRepr (n : Int) : jsNumber (intRepr n) = some n := by
  cases n with
  | ofNat m =>
    show jsNumber (natRepr m) = some (Int.ofNat m)
    unfold jsNumber
    rw [if_neg (natRepr_ne_empty m)]
    cases hl : (natRepr m).toList with
    | nil => exact absurd hl (natReprGo_ne_nil m m)
    | cons c cs =>
      have hcm : c ≠ '-' := natReprGo_no_minus m m c
        (by
          rw [show (natReprGo m m).toList = c :: cs from hl]
          exact List.mem_cons_self _ _)
      split
      · rename_i rest heq
        cases heq
        exact absurd rfl hcm
      · rw [show (c :: cs) = (natReprGo m m).toList from hl.symm]
        rw [digitsNat_natReprGo m m (le_refl m)]
        rfl
  | negSucc m =>
    show jsNumber ("-" ++ natRepr (m + 1)) = some (Int.negSucc m)
    unfold jsNumber
    rw [if_neg (show ¬("-" ++ natRepr (m + 1) = "") from intRepr_ne_empty (Int.negSucc m))]
    show (digitsNat (natReprGo (m + 1) (m + 1)).toList).map (fun k => -(k : Int))
      = some (Int.negSucc m)
    rw [digitsNat_natReprGo (m + 1) (m + 1) (le_refl _)]
    show some (-(((m + 1 : Nat)) : Int)) = some (Int.negSucc m)
    refine congrArg some ?_
    rw [Int.negSucc_eq]
    push_cast
    ring

/-- Extraction of one representable primitive field reads back exactly the
loaded value. -/
theorem extractRun_extractValue_primitive (env : Env) (f : Nat) (ws : WS) (id : Nat)
    (fn : String) (v : CVal) (psch : Schema) (path : String)
    (hce : env.customExtractors = [])
    (h : repVal psch v = true)
    (hf : ws.getField id fn = some (loadFieldStr psch v)) :
    ConfigGenerator.extractRun env (f + 1) ws (.extractValue id fn psch path)
      = some (some v) := by
  obtain ⟨h1, h2, hen, hrest⟩ := repVal_cases h
  rw [extractRun_succ]
  rcases hrest with ⟨s, hty, hv, hs⟩ | ⟨n, hty, hv⟩ | ⟨b, hty, hv⟩
  · subst hv
    rw [show loadFieldStr psch (.str s) = s from by simp [loadFieldStr, hty]; rfl] at hf
    simp only [ConfigGenerator.extractStep, hce, List.lookup_nil]
    rw [if_neg (by simp [h1, h2]), if_pos (by simp [hen, hty])]
    simp only [hf]
    rw [if_neg (bne_iff_ne.mp hs)]
  · rcases hty with hty | hty
    all_goals
      subst hv
      rw [show loadFieldStr psch (.num n) = intRepr n from by simp [loadFieldStr, hty]; rfl] at hf
      simp only [ConfigGenerator.extractStep, hce, List.lookup_nil]
      rw [if_neg (by simp [h1, h2]), if_neg (by simp [hen, hty]), if_pos (by simp [hty])]
      simp only [hf]
      rw [if_neg (intRepr_ne_empty n), jsNumber_intRepr]
  · subst hv
    cases b
    · rw [show loadFieldStr psch (.bool false) = "FALSE" from by
        simp [loadFieldStr, hty, jsTruthy]] at hf
      simp only [ConfigGenerator.extractStep, hce, List.lookup_nil]
      rw [if_neg (by simp [h1, h2]), if_neg (by simp [hen, hty]), if_neg (by simp [hty]),
        if_pos (by simp [hty])]
      rw [hf]
      rfl
    · rw [show loadFieldStr psch (.bool true) = "TRUE" from by
        simp [loadFieldStr, hty, jsTruthy]] at hf
      simp only [ConfigGenerator.extractStep, hce, List.lookup_nil]
      rw [if_neg (by simp [h1, h2]), if_neg (by simp [hen, hty]), if_neg (by simp [hty]),
        if_pos (by simp [hty])]
      rw [hf]
      rfl

/-- The flat property loop of the loader: with representable values for
pairwise-distinct (uppercased) primitive properties, population succeeds and
writes exactly the primitive field strings, touching nothing else. -/
theorem loadRun_flat_props (env : Env) (vs : List (String × CVal)) (id : Nat) (path : String) :
    ∀ (ps : List (String × Schema)),
      (ps.map (fun kv => jsToUpper kv.1)).Nodup →
      (∀ kv ∈ ps, ∃ v, vs.lookup kv.1 = some v ∧ repVal kv.2 v = true) →
      ∀ (f : Nat) (ws : WS), ps.length + 1 ≤ f →
        (∀ kv ∈ ps, (ws.getField id (jsToUpper kv.1)).isSome = true) →
        ∃ ws', ConfigLoader.loadRun env f ws (.populateProps id ps vs path) = some ws'
          ∧ (∀ kv ∈ ps, ∀ v, vs.lookup kv.1 = some v →
              ws'.getField id (jsToUpper kv.1) = some (loadFieldStr kv.2 v))
          ∧ (∀ j nm, (j ≠ id ∨ ∀ kv ∈ ps, nm ≠ jsToUpper kv.1) →
              ws'.getField j nm = ws.getField j nm)
          ∧ ws'.blocks.length = ws.blocks.length
          ∧ (∀ j, ws'.btypeOf j = ws.btypeOf j) := by
  intro ps
  induction ps with
  | nil =>
    intro hnd hrep f ws hf hpre
    obtain ⟨fp, rfl⟩ : ∃ fp, f = fp + 1 := ⟨f - 1, by omega⟩
    exact ⟨ws, rfl, fun kv hkv => absurd hkv (List.not_mem_nil kv),
      fun j nm h => rfl, rfl, fun j => rfl⟩
  | cons head rest ih =>
    obtain ⟨p, psch⟩ := head
    intro hnd hrep f ws hf hpre
    obtain ⟨f1, rfl⟩ : ∃ fp, f = fp + 1 := ⟨f - 1, by omega⟩
    obtain ⟨f2, rfl⟩ : ∃ fp, f1 = fp + 1 := ⟨f1 - 1, by simp at hf; omega⟩
    obtain ⟨v, hv, hrv⟩ := hrep (p, psch) (List.mem_cons_self _ _)
    have hnd' : (rest.map (fun kv => jsToUpper kv.1)).Nodup := by
      simp only [List.map_cons, List.nodup_cons] at hnd
      exact hnd.2
    have hhead_notin : ∀ kv ∈ rest, jsToUpper p ≠ jsToUpper kv.1 := by
      simp only [List.map_cons, List.nodup_cons] at hnd
      intro kv hkv e
      exact hnd.1 (by rw [e]; exact List.mem_map_of_mem _ hkv)
    have hset := loadRun_setField_primitive env f2 ws id (jsToUpper p) v psch
      (path ++ "_" ++ p) hrv
    have hpre1 : ∀ kv ∈ rest,
        ((ws.setField id (jsToUpper p) (loadFieldStr psch v)).getField id
          (jsToUpper kv.1)).isSome = true := by
      intro kv hkv
      rw [getField_setField_isSome]
      exact hpre kv (List.mem_cons_of_mem _ hkv)
    obtain ⟨ws2, hrun2, hfields2, hframe2, hlen2, hbt2⟩ :=
      ih hnd' (fun kv hkv => hrep kv (List.mem_cons_of_mem _ hkv)) (f2 + 1)
        (ws.setField id (jsToUpper p) (loadFieldStr psch v))
        (by simp at hf ⊢; omega) hpre1
    refine ⟨ws2, ?_, ?_, ?_, ?_, ?_⟩
    · rw [loadRun_succ]
      obtain ⟨-, -, -, hsh⟩ := repVal_cases hrv
      rcases hsh with ⟨s, hty, hv2, hs⟩ | ⟨n, hty, hv2⟩ | ⟨b, hty, hv2⟩ <;> subst hv2 <;>
        simp only [ConfigLoader.loadStep, hv, hset, obind_some, hrun2]
    · intro kv hkv v2 hv2
      rcases List.mem_cons.mp hkv with he | hkv2
      · cases he
        rw [hv] at hv2
        cases hv2
        rw [hframe2 id (jsToUpper p) (Or.inr (fun kv2 hkv2 => hhead_notin kv2 hkv2))]
        exact getField_setField_same ws id (jsToUpper p) (loadFieldStr psch v)
          (hpre (p, psch) (List.mem_cons_self _ _))
      · exact hfields2 kv hkv2 v2 hv2
    · intro j nm hcond
      have hc2 : j ≠ id ∨ ∀ kv ∈ rest, nm ≠ jsToUpper kv.1 := by
        rcases hcond with hh | hh
        · exact Or.inl hh
        · exact Or.inr (fun kv hkv => hh kv (List.mem_cons_of_mem _ hkv))
      rw [hframe2 j nm hc2]
      apply getField_setField_other
      rcases hcond with hh | hh
      · exact Or.inl hh
      · exact Or.inr (hh (p, psch) (List.mem_cons_self _ _))
    · rw [hlen2, setField_length]
    · intro j
      rw [hbt2 j, setField_btypeOf]

/-- The flat property loop of the extractor: on a workspace carrying the
loaded field strings, extraction returns exactly the schema's properties in
declaration order with the original values, under every missing-field
policy. -/
theorem extractRun_flat_props (env : Env) (vs : List (String × CVal)) (id : Nat) (path : String)
    (hce : env.customExtractors = []) :
    ∀ (ps : List (String × Schema)),
      (∀ kv ∈ ps, ∃ v, vs.lookup kv.1 = some v ∧ repVal kv.2 v = true) →
      ∀ (f : Nat) (ws : WS), ps.length + 1 ≤ f →
        (∀ kv ∈ ps, ∀ v, vs.lookup kv.1 = some v →
          ws.getField id (jsToUpper kv.1) = some (loadFieldStr kv.2 v)) →
        ConfigGenerator.extractRun env f ws (.configProps id ps path)
          = some (some (.obj (ps.map (fun kv => (kv.1, (vs.lookup kv.1).getD .null))))) := by
  intro ps
  induction ps with
  | nil =>
    intro hrep f ws hf hfld
    obtain ⟨fp, rfl⟩ : ∃ fp, f = fp + 1 := ⟨f - 1, by omega⟩
    rfl
  | cons head rest ih =>
    obtain ⟨p, psch⟩ := head
    intro hrep f ws hf hfld
    obtain ⟨f1, rfl⟩ : ∃ fp, f = fp + 1 := ⟨f - 1, by omega⟩
    obtain ⟨f2, rfl⟩ : ∃ fp, f1 = fp + 1 := ⟨f1 - 1, by simp at hf; omega⟩
    obtain ⟨v, hv, hrv⟩ := hrep (p, psch) (List.mem_cons_self _ _)
    have hx := extractRun_extractValue_primitive env f2 ws id (jsToUpper p) v psch
      (path ++ "_" ++ p) hce hrv (hfld (p, psch) (List.mem_cons_self _ _) v hv)
    have hr := ih (fun kv hkv => hrep kv (List.mem_cons_of_mem _ hkv)) (f2 + 1) ws
      (by simp at hf ⊢; omega)
      (fun kv hkv v2 hv2 => hfld kv (List.mem_cons_of_mem _ hkv) v2 hv2)
    rw [extractRun_succ]
    simp only [ConfigGenerator.extractStep, hx, hr, obind_some]
    obtain ⟨-, -, -, hsh⟩ := repVal_cases hrv
    rcases hsh with ⟨s, hty, hv2, hs⟩ | ⟨n, hty, hv2⟩ | ⟨b, hty, hv2⟩ <;> subst hv2 <;>
      simp only [ConfigGenerator.propPolicyEntries, List.map_cons, hv, Option.getD_some] <;>
      rfl

/-- C1 (amended): the flat round trip. In a variant-free environment with no
custom extractors, whose root definition carries a field for every property
and whose root type maps to a flat object schema of primitive-typed
properties with pairwise-distinct uppercased names, loading a configuration
that provides a representable value for every property and extracting
returns exactly the schema's properties in declaration order with the
original values — deep-equal to the original configuration whenever it lists
exactly those properties in schema order — under every missing-field
policy. -/
theorem round_trip_amended (env : Env) (RT : String) (S : Schema)
    (ps : List (String × Schema)) (vs : List (String × CVal)) (d : BlockDefinition)
    (fuel : Nat)
    (hrt : env.rootType = RT)
    (_hvar : env.variants = [])
    (hce : env.customExtractors = [])
    (hdef : env.defs.lookup RT = some d)
    (hbsm : env.blockSchemaMap.lookup RT = some S)
    (hprops : S.properties = some ps)
    (hnd : (ps.map (fun kv => jsToUpper kv.1)).Nodup)
    (hfld0 : ∀ kv ∈ ps,
      (((d.args0.map argInitFields).flatten).lookup (jsToUpper kv.1)).isSome = true)
    (hrep : ∀ kv ∈ ps, ∃ v, vs.lookup kv.1 = some v ∧ repVal kv.2 v = true)
    (hfuel : ps.length + 2 ≤ fuel) :
    ∃ ws, ConfigLoader.load env fuel vs = some ws
      ∧ ConfigGenerator.generate env fuel ws RT
          = .ok (.obj (ps.map (fun kv => (kv.1, (vs.lookup kv.1).getD .null))), []) := by
  obtain ⟨f1, rfl⟩ : ∃ f1, fuel = f1 + 1 := ⟨fuel - 1, by omega⟩
  obtain ⟨f2, rfl⟩ : ∃ f2, f1 = f2 + 1 := ⟨f1 - 1, by omega⟩
  have hload1 : ConfigLoader.load env (f2 + 1 + 1) vs
      = ConfigLoader.loadRun env (f2 + 1 + 1)
          ⟨[⟨RT, (d.args0.map argInitFields).flatten,
            (d.args0.map argInitInputs).flatten, none⟩]⟩
          (.populate 0 vs env.schema RT) := by
    simp only [ConfigLoader.load, WS.newBlock, hrt, hdef]
    rfl
  have hbty1 : (⟨[⟨RT, (d.args0.map argInitFields).flatten,
      (d.args0.map argInitInputs).flatten, none⟩]⟩ : WS).btypeOf 0 = RT := rfl
  have hpop : ConfigLoader.loadRun env (f2 + 1 + 1)
      ⟨[⟨RT, (d.args0.map argInitFields).flatten,
        (d.args0.map argInitInputs).flatten, none⟩]⟩
      (.populate 0 vs env.schema RT)
      = ConfigLoader.loadRun env (f2 + 1)
          ⟨[⟨RT, (d.args0.map argInitFields).flatten,
            (d.args0.map argInitInputs).flatten, none⟩]⟩
          (.populateProps 0 ps vs RT) := by
    rw [loadRun_succ]
    simp only [ConfigLoader.loadStep, hbty1, hbsm, Option.getD_some, hprops]
  obtain ⟨ws2, hrun2, hfields2, hframe2, hlen2, hbt2⟩ :=
    loadRun_flat_props env vs 0 RT ps hnd hrep (f2 + 1)
      ⟨[⟨RT, (d.args0.map argInitFields).flatten,
        (d.args0.map argInitInputs).flatten, none⟩]⟩
      (by simp at hfuel ⊢; omega)
      (fun kv hkv => hfld0 kv hkv)
  have hloadAll : ConfigLoader.load env (f2 + 1 + 1) vs = some ws2 := by
    rw [hload1, hpop, hrun2]
  have hlen : ws2.blocks.length = 1 := by
    rw [hlen2]
    rfl
  obtain ⟨b2, hb2⟩ : ∃ b, ws2.blocks = [b] := by
    cases hbl : ws2.blocks with
    | nil => rw [hbl] at hlen; simp at hlen
    | cons b tl =>
      cases htl : tl with
      | nil => exact ⟨b, rfl⟩
      | cons c tl2 =>
        rw [hbl] at hlen
        simp at hlen
        rw [hlen] at htl
        exact absurd htl (by simp)
  have hbty2 : ws2.btypeOf 0 = RT := by rw [hbt2 0]; exact hbty1
  have hbt0 : b2.btype = RT := by
    rw [show ws2.btypeOf 0 = ((ws2.blocks.get? 0).map Blk.btype).getD "" from rfl, hb2] at hbty2
    exact hbty2
  have hbot : ws2.blocksOfType RT = [0] := by
    show ((ws2.blocks.enum.filter (fun q => q.2.btype = RT)).map Prod.fst) = [0]
    rw [hb2]
    show (([(0, b2)]).filter (fun q => q.2.btype = RT)).map Prod.fst = [0]
    simp [hbt0]
  have hext : ConfigGenerator.extractRun env (f2 + 1 + 1) ws2 (.blockToConfig 0 env.schema RT)
      = some (some (.obj (ps.map (fun kv => (kv.1, (vs.lookup kv.1).getD .null))))) := by
    rw [extractRun_succ]
    simp only [ConfigGenerator.extractStep, hbty2, hbsm, Option.getD_some, hprops]
    exact extractRun_flat_props env vs 0 RT hce ps hrep (f2 + 1) ws2
      (by simp at hfuel ⊢; omega) hfields2
  refine ⟨ws2, hloadAll, ?_⟩
  simp only [ConfigGenerator.generate, hbot, hext]
  rfl

/-- C1 witness for the amended flat round trip: the boolean configuration
`{b: true}` loads and extracts back to itself. -/
theorem round_trip_amended_witness :
    ∃ ws, ConfigLoader.load c1env 10 [("b", CVal.bool true)] = some ws
      ∧ ConfigGenerator.generate c1env 10 ws "cfg_root"
          = .ok (.obj [("b", CVal.bool true)], []) := by
  obtain ⟨ws, h1, h2⟩ := round_trip_amended c1env "cfg_root" c1schema [("b", sBool)]
    [("b", CVal.bool true)] c1def 10 rfl rfl rfl rfl rfl rfl
    (by decide) (by decide)
    (by
      intro kv hkv
      rw [List.mem_singleton] at hkv
      subst hkv
      exact ⟨CVal.bool true, rfl, rfl⟩)
    (by decide)
  exact ⟨ws, h1, h2⟩
